import Mathlib

/-!
# pagy: pagination query and response helpers

A shallow embedding of `pagy/pagy.go` and a verification of its specification.

Conventions of the embedding.

* A Go `int` is a 64-bit two's-complement integer.  It is a Lean `Int`; every
  arithmetic result is reduced into the 64-bit range by `wrapInt`.
* A Go `float64` is an IEEE-754 binary64 value.  Finite values are exact
  rationals; every operation rounds its exact result to the nearest
  representable value, ties to even (`Float64.round`).
* A run-time panic is the `none` of an `Option`.
* A Go `error` result is the `Except.error` of an `Except`; a method that
  returns an `error` beside mutating its receiver returns the new receiver
  and an `Option`, `none` for `nil`.
* A Go string is a Lean `String` (a sequence of Unicode code points).
* A `*PaginationQuery` argument is the query it points to (no nil pointer).
-/

namespace Pagy

/-! ## Machine integers -/

/-- The least Go `int`. -/
def minInt : Int := -2 ^ 63

/-- The greatest Go `int`. -/
def maxInt : Int := 2 ^ 63 - 1

/-- The values a Go `int` can hold. -/
def IsInt (n : Int) : Prop := minInt ≤ n ∧ n ≤ maxInt

instance (n : Int) : Decidable (IsInt n) := by unfold IsInt; infer_instance

/-- Two's-complement reduction of an exact integer into the range of `int`. -/
def wrapInt (n : Int) : Int := (n + 2 ^ 63) % 2 ^ 64 - 2 ^ 63

/-- Go `x - y` on `int`. -/
def intSub (x y : Int) : Int := wrapInt (x - y)

/-- Go `x * y` on `int`. -/
def intMul (x y : Int) : Int := wrapInt (x * y)

/-- Go `x / y` on `int`: a run-time panic when `y` is zero, else the quotient
truncated toward zero; the one quotient that does not fit, `minInt / -1`,
wraps. -/
def intDiv (x y : Int) : Option Int :=
  if y = 0 then none else some (wrapInt (Int.tdiv x y))

/-! ## Floating point -/

/-- An IEEE-754 binary64 value.  A finite value is the rational it denotes; the
sign of a zero is not kept: no divisor in this package is a negative zero
(divisors are converted integers) and the conversion back to `int` sends both
zeros to `0`. -/
inductive Float64 where
  | finite (q : ℚ)
  | posInf
  | negInf
  | nan
  deriving DecidableEq

/-- Nearest integer to `y`, a tie going to the even neighbour. -/
def roundNearestEven (y : ℚ) : ℤ :=
  let f := ⌊y⌋
  if y - f < 1 / 2 then f
  else if 1 / 2 < y - f then f + 1
  else if f % 2 = 0 then f else f + 1

/-- Exponent of the unit in the last place of the binary64 format at `x`:
a 53-bit significand, with the subnormal range below `2 ^ (-1022)`. -/
def ulpExp (x : ℚ) : ℤ := max (Int.log 2 |x|) (-1022) - 52

/-- The multiple of the unit in the last place nearest to `x`, ties to even. -/
def roundToGrid (x : ℚ) : ℚ :=
  if x = 0 then 0 else roundNearestEven (x / 2 ^ ulpExp x) * 2 ^ ulpExp x

/-- Rounding of an exact result to binary64 (round to nearest, ties to even,
overflow to an infinity). -/
def Float64.round (x : ℚ) : Float64 :=
  let r := roundToGrid x
  if 2 ^ 1024 ≤ r then Float64.posInf
  else if r ≤ -2 ^ 1024 then Float64.negInf
  else Float64.finite r

/-- Go `float64(n)` for an `int` n. -/
def Float64.ofInt (n : Int) : Float64 := Float64.round n

/-- Go `x / y` on `float64`. -/
def Float64.div : Float64 → Float64 → Float64
  | Float64.nan, _ => Float64.nan
  | _, Float64.nan => Float64.nan
  | Float64.finite a, Float64.finite b =>
      if b = 0 then
        if a = 0 then Float64.nan
        else if 0 < a then Float64.posInf else Float64.negInf
      else Float64.round (a / b)
  | Float64.finite _, _ => Float64.finite 0
  | Float64.posInf, Float64.finite b => if 0 ≤ b then Float64.posInf else Float64.negInf
  | Float64.negInf, Float64.finite b => if 0 ≤ b then Float64.negInf else Float64.posInf
  | _, _ => Float64.nan

/-- Go `math.Ceil`. -/
def Float64.ceil : Float64 → Float64
  | Float64.finite q => Float64.finite ⌈q⌉
  | x => x

/-- Go `int(x)` for a `float64` x: the fraction is discarded; when the result
does not fit an `int` (or `x` is an infinity or a NaN) the conversion still
succeeds and its value is implementation-dependent, given here by `impl`. -/
def Float64.toInt (impl : Float64 → Int) : Float64 → Int
  | Float64.finite q =>
      let z : Int := if 0 ≤ q then ⌊q⌋ else ⌈q⌉
      if minInt ≤ z ∧ z ≤ maxInt then z else impl (Float64.finite q)
  | x => impl x

/-- The conversion of an unrepresentable `float64` on amd64: the "integer
indefinite" value `minInt`. -/
def amd64 : Float64 → Int := fun _ => minInt

/-! ## Strings and parsing (Go standard library) -/

/-- The `utf8.RuneSelf` constant: a rune below it is one ASCII byte. -/
def RuneSelf : Nat := 0x80

/-- Go `unicode.SimpleFold` on the case-folding orbits that contain an ASCII
rune: `A`..`Z` pair with `a`..`z`, and two orbits have a third member, the
Kelvin sign U+212A with `K`, `k` and the long s U+017F with `S`, `s`.  It
returns the next larger rune of the orbit, or wraps to the smallest.  Other
orbits are not listed (the rune is returned unchanged): `EqualFold` consults
the table from the smaller of two runes and only when the larger is not ASCII,
and this package folds against the ASCII literal `"asc"` only. -/
def SimpleFold (r : Char) : Char :=
  if r = 'K' then 'k'
  else if r = 'k' then Char.ofNat 0x212A
  else if r = Char.ofNat 0x212A then 'K'
  else if r = 'S' then 's'
  else if r = 's' then Char.ofNat 0x17F
  else if r = Char.ofNat 0x17F then 'S'
  else if 'A' ≤ r ∧ r ≤ 'Z' then Char.ofNat (r.toNat + 32)
  else if 'a' ≤ r ∧ r ≤ 'z' then Char.ofNat (r.toNat - 32)
  else r

/-- The orbit walk of `EqualFold`:
`for r != sr && r < tr { r = unicode.SimpleFold(r) }`, at most `fuel` turns. -/
def foldLoop (sr tr : Char) : Nat → Char → Char
  | 0, r => r
  | fuel + 1, r => if r ≠ sr ∧ r < tr then foldLoop sr tr fuel (SimpleFold r) else r

/-- One step of `EqualFold`: whether the runes `sr` and `tr` are equal under
simple case folding.  An orbit of `SimpleFold` has at most three runes, so the
walk is over within three turns. -/
def equalFoldRune (sr tr : Char) : Bool :=
  if tr = sr then true
  else
    let lo := if tr < sr then tr else sr
    let hi := if tr < sr then sr else tr
    if hi.toNat < RuneSelf then
      decide ('A' ≤ lo ∧ lo ≤ 'Z' ∧ hi.toNat = lo.toNat + ('a'.toNat - 'A'.toNat))
    else
      decide (foldLoop lo hi 3 (SimpleFold lo) = hi)

/-- The rune loop of `EqualFold`. -/
def equalFoldRunes : List Char → List Char → Bool
  | [], t => t.isEmpty
  | _ :: _, [] => false
  | sr :: s, tr :: t => equalFoldRune sr tr && equalFoldRunes s t

/-- Go `strings.EqualFold`: equality under simple Unicode case folding. -/
def EqualFold (s t : String) : Bool := equalFoldRunes s.data t.data

/-- The error kinds of a `*strconv.NumError`. -/
inductive NumError where
  | ErrSyntax
  | ErrRange
  deriving DecidableEq

/-- The greatest `uint64`. -/
def maxUint64 : Nat := 2 ^ 64 - 1

/-- The digit loop of `strconv.ParseUint(s, 10, 64)`, `n` being the value read
so far: a byte that is not a decimal digit is a syntax error, a value that
leaves the `uint64` range is a range error. -/
def parseUintLoop : List Char → Nat → Except NumError Nat
  | [], n => Except.ok n
  | c :: cs, n =>
      if '0' ≤ c ∧ c ≤ '9' then
        let d := c.toNat - '0'.toNat
        if maxUint64 / 10 + 1 ≤ n then Except.error NumError.ErrRange
        else
          let n10 := n * 10 % 2 ^ 64
          let n1 := (n10 + d) % 2 ^ 64
          if n1 < n10 ∨ maxUint64 < n1 then Except.error NumError.ErrRange
          else parseUintLoop cs n1
      else Except.error NumError.ErrSyntax

/-- Go `strconv.ParseUint(s, 10, 64)`. -/
def ParseUint (s : List Char) : Except NumError Nat :=
  if s = [] then Except.error NumError.ErrSyntax else parseUintLoop s 0

/-- Go `strconv.ParseInt(s, 10, 0)`: an optional sign, then `ParseUint`, then
the range check against `int`. -/
def ParseInt (s : List Char) : Except NumError Int :=
  match s with
  | [] => Except.error NumError.ErrSyntax
  | c :: cs =>
      let neg := decide (c = '-')
      let rest := if c = '+' ∨ c = '-' then cs else c :: cs
      match ParseUint rest with
      | Except.error err => Except.error err
      | Except.ok un =>
          if ¬ neg ∧ 2 ^ 63 ≤ un then Except.error NumError.ErrRange
          else if neg ∧ 2 ^ 63 < un then Except.error NumError.ErrRange
          else
            let n := wrapInt un
            Except.ok (if neg then wrapInt (-n) else n)

/-- Go `strconv.Atoi`, which is `ParseInt(s, 10, 0)` converted to `int` (its
fast path for short strings computes the same result). -/
def Atoi (s : String) : Except NumError Int := ParseInt s.data

/-- Go `fmt.Sprintf("%s %s", a, b)`. -/
def sprintfTwo (a b : String) : String := a ++ " " ++ b

/-! ## The package -/

/-- The `defaultSize` constant. -/
def defaultSize : Int := 10

/-- A Go slice as this package sees it: the nil slice, or an allocated
(possibly empty) sequence. -/
inductive Slice (α : Type) where
  | nil : Slice α
  | elems (xs : List α) : Slice α
  deriving DecidableEq

/-- PaginationResponse response type. -/
structure PaginationResponse (α : Type) where
  TotalCount : Int
  TotalPages : Int
  Page : Int
  Size : Int
  HasMore : Bool
  Values : Slice α
  deriving DecidableEq

/-- PaginationQuery query params. -/
structure PaginationQuery where
  Size : Int
  Page : Int
  OrderBy : String
  OrderDir : String
  deriving DecidableEq

/-- GetOffset returns the column offset value. -/
def PaginationQuery.GetOffset (q : PaginationQuery) : Int :=
  if q.Page = 0 then 0 else intMul (intSub q.Page 1) q.Size

/-- GetLimit returns the limit of columns to return. -/
def PaginationQuery.GetLimit (q : PaginationQuery) : Int := q.Size

/-- GetOrderBy returns the column order value. -/
def PaginationQuery.GetOrderBy (q : PaginationQuery) : String := q.OrderBy

/-- GetPage returns the offset or ( page ). -/
def PaginationQuery.GetPage (q : PaginationQuery) : Int := q.Page

/-- GetSize returns the number of requested rows. -/
def PaginationQuery.GetSize (q : PaginationQuery) : Int := q.Size

/-- GetTotalPages returns the total pages count. -/
def GetTotalPages (impl : Float64 → Int) (totalCount pageSize : Int) : Int :=
  let d := Float64.div (Float64.ofInt totalCount) (Float64.ofInt pageSize)
  Float64.toInt impl (Float64.ceil d)

/-- GetHasMore returns the has more pages value. -/
def GetHasMore (currentPage totalCount pageSize : Int) : Option Bool :=
  (intDiv totalCount pageSize).map fun q => decide (currentPage < q)

/-- PaginatedResponse returns a hydrated pagination response model.  The
fields of the literal are evaluated in order; a panic in one of them is the
panic of the call. -/
def PaginatedResponse {α : Type} (impl : Float64 → Int) (count : Int)
    (pq : PaginationQuery) (list : Slice α) : Option (PaginationResponse α) := do
  let totalPages := GetTotalPages impl count pq.GetSize
  let hasMore ← GetHasMore pq.GetPage count pq.GetSize
  pure
    { TotalCount := count
      TotalPages := totalPages
      Page := pq.GetPage
      Size := pq.GetSize
      HasMore := hasMore
      Values := list }

/-- DefaultPaginationResponse returns a default ( empty ) pagination response
model. -/
def DefaultPaginationResponse {α : Type} (impl : Float64 → Int)
    (pq : PaginationQuery) : Option (PaginationResponse α) := do
  let totalPages := GetTotalPages impl 0 pq.GetSize
  let hasMore ← GetHasMore pq.GetPage 0 pq.GetSize
  pure
    { TotalCount := 0
      TotalPages := totalPages
      Page := pq.GetPage
      Size := pq.GetSize
      HasMore := hasMore
      Values := Slice.elems [] }

/-! ## The query -/

/-- SetSize converts the size value to an integer and sets it.  The result is
the query after the call and the returned error (`none` for `nil`). -/
def PaginationQuery.SetSize (q : PaginationQuery) (sizeQuery : String) :
    PaginationQuery × Option NumError :=
  if sizeQuery = "" then ({ q with Size := defaultSize }, none)
  else
    match Atoi sizeQuery with
    | Except.error err => (q, some err)
    | Except.ok n => ({ q with Size := n }, none)

/-- SetPage converts the page value to an integer and sets it. -/
def PaginationQuery.SetPage (q : PaginationQuery) (pageQuery : String) :
    PaginationQuery × Option NumError :=
  if pageQuery = "" then ({ q with Size := 0 }, none)
  else
    match Atoi pageQuery with
    | Except.error err => (q, some err)
    | Except.ok n => ({ q with Page := n }, none)

/-- SetOrderBy sets the column order string with col-name + dir-identifier. -/
def PaginationQuery.SetOrderBy (q : PaginationQuery) (orderByQuery orderDirQuery : String) :
    PaginationQuery :=
  let q1 : PaginationQuery :=
    if orderByQuery = "" then { q with OrderBy := "id" } else { q with OrderBy := orderByQuery }
  if orderDirQuery = "" ∨ EqualFold orderDirQuery "asc" = true then
    { q1 with OrderBy := sprintfTwo q1.OrderBy "ASC" }
  else
    { q1 with OrderBy := sprintfTwo q1.OrderBy "DESC" }

/-- GetQueryString returns an example of the query string passed in the http
request. -/
def PaginationQuery.GetQueryString (q : PaginationQuery) : String :=
  "page=" ++ toString q.GetPage ++ "&size=" ++ toString q.GetSize ++ "&orderBy=" ++ q.GetOrderBy

/-- The parsed query of an `http.Request` (`r.URL.Query()`): the values given
for each key, in order. -/
structure Request where
  Query : String → List String

/-- Go `url.Values.Get`: the first value of the key, the empty string when
there is none. -/
def Request.Get (r : Request) (key : String) : String :=
  match r.Query key with
  | [] => ""
  | v :: _ => v

/-- GetPaginationFromRequest pagination query struct from. -/
def GetPaginationFromRequest (r : Request) : Except NumError PaginationQuery :=
  let q : PaginationQuery := { Size := 0, Page := 0, OrderBy := "", OrderDir := "" }
  match q.SetPage (r.Get "page") with
  | (_, some err) => Except.error err
  | (q1, none) =>
      match q1.SetSize (r.Get "size") with
      | (_, some err) => Except.error err
      | (q2, none) => Except.ok (q2.SetOrderBy (r.Get "orderBy") (r.Get "orderDir"))

/-- The request of `TestGetPaginationFromRequest`:
`page=1&size=10&orderBy=first_name&orderDir=desc`. -/
def testRequest : Request where
  Query := fun key =>
    if key = "page" then ["1"]
    else if key = "size" then ["10"]
    else if key = "orderBy" then ["first_name"]
    else if key = "orderDir" then ["desc"]
    else []

/-! ## The specification's vocabulary -/

/-- Simple case folding of a code point, as the specification's
"case-insensitive" comparison reads it: a capital ASCII letter folds to its
small letter, the long s U+017F to `s`, the Kelvin sign U+212A to `k` (the
folds that reach an ASCII letter); any other code point is kept. -/
def foldCode (n : Nat) : Nat :=
  if 65 ≤ n ∧ n ≤ 90 then n + 32
  else if n = 0x17F then 115
  else if n = 0x212A then 107
  else n

/-- The specification's "equals case-insensitively": the two strings have the
same code points once each is folded. -/
def EqualsIgnoringCase (s t : String) : Prop :=
  s.data.map (fun c => foldCode c.toNat) = t.data.map (fun c => foldCode c.toNat)

instance (s t : String) : Decidable (EqualsIgnoringCase s t) := by
  unfold EqualsIgnoringCase; infer_instance

/-- The natural number a sequence of decimal digits denotes, the most
significant digit first. -/
def decimalValue (ds : List Char) : Nat :=
  Nat.ofDigits 10 (ds.reverse.map fun c => c.toNat - 48)

/-- The specification's reading of a string as a decimal integer: an optional
sign `+` or `-`, then one or more ASCII digits `0`..`9`; `none` for any other
string. -/
def decimalInteger (s : String) : Option Int :=
  match s.data with
  | [] => none
  | c :: cs =>
      let ds := if c = '+' ∨ c = '-' then cs else c :: cs
      if ds ≠ [] ∧ ∀ d ∈ ds, 48 ≤ d.toNat ∧ d.toNat ≤ 57 then
        some (if c = '-' then -(decimalValue ds : Int) else (decimalValue ds : Int))
      else none

/-- The specification's "valid integer string": a decimal integer that an
`int` can hold. -/
def ValidIntString (s : String) : Prop := ∃ n, decimalInteger s = some n ∧ IsInt n

/-! ## Rounding to binary64 -/

theorem roundNearestEven_floor_le (y : ℚ) : ⌊y⌋ ≤ roundNearestEven y := by
  unfold roundNearestEven
  simp only
  split_ifs <;> omega

theorem roundNearestEven_le_floor_succ (y : ℚ) : roundNearestEven y ≤ ⌊y⌋ + 1 := by
  unfold roundNearestEven
  simp only
  split_ifs <;> omega

theorem roundNearestEven_intCast (n : ℤ) : roundNearestEven (n : ℚ) = n := by
  unfold roundNearestEven
  simp

theorem le_roundNearestEven {y : ℚ} {n : ℤ} (h : (n : ℚ) ≤ y) : n ≤ roundNearestEven y :=
  le_trans (Int.le_floor.mpr h) (roundNearestEven_floor_le y)

theorem roundNearestEven_le {y : ℚ} {n : ℤ} (h : y ≤ (n : ℚ)) : roundNearestEven y ≤ n := by
  rcases lt_or_eq_of_le h with h1 | h1
  · have : ⌊y⌋ < n := Int.floor_lt.mpr h1
    have := roundNearestEven_le_floor_succ y
    omega
  · rw [h1, roundNearestEven_intCast]

theorem succ_le_roundNearestEven {y : ℚ} {n : ℤ} (h : (n : ℚ) + 1 / 2 < y) :
    n + 1 ≤ roundNearestEven y := by
  have hn : n ≤ ⌊y⌋ := Int.le_floor.mpr (by linarith)
  rcases lt_or_eq_of_le hn with h1 | h1
  · have := roundNearestEven_floor_le y
    omega
  · unfold roundNearestEven
    simp only
    have h2 : ¬ (y - (⌊y⌋ : ℚ) < 1 / 2) := by rw [← h1]; linarith
    have h3 : 1 / 2 < y - (⌊y⌋ : ℚ) := by rw [← h1]; linarith
    rw [if_neg h2, if_pos h3, h1]

theorem log_abs_eq {x : ℚ} {e : ℤ} (h1 : (2 : ℚ) ^ e ≤ |x|) (h2 : |x| < (2 : ℚ) ^ (e + 1)) :
    Int.log 2 |x| = e := by
  have hpos : 0 < |x| := lt_of_lt_of_le (zpow_pos (by norm_num) e) h1
  apply le_antisymm
  · have := (Int.lt_zpow_iff_log_lt (b := 2) (by norm_num) hpos (x := e + 1)).mp (by exact_mod_cast h2)
    omega
  · exact (Int.zpow_le_iff_le_log (b := 2) (by norm_num) hpos).mp (by exact_mod_cast h1)

theorem ulpExp_eq {x : ℚ} {e : ℤ} (he : -1022 ≤ e) (h1 : (2 : ℚ) ^ e ≤ |x|)
    (h2 : |x| < (2 : ℚ) ^ (e + 1)) : ulpExp x = e - 52 := by
  unfold ulpExp
  rw [log_abs_eq h1 h2, max_eq_left he]


theorem roundToGrid_eq {x : ℚ} {e : ℤ} (he : -1022 ≤ e) (h1 : (2 : ℚ) ^ e ≤ |x|)
    (h2 : |x| < (2 : ℚ) ^ (e + 1)) :
    roundToGrid x = roundNearestEven (x / 2 ^ (e - 52)) * 2 ^ (e - 52) := by
  have hpos : 0 < |x| := lt_of_lt_of_le (zpow_pos (by norm_num) e) h1
  have hx : x ≠ 0 := abs_pos.mp hpos
  unfold roundToGrid
  rw [if_neg hx, ulpExp_eq he h1 h2]

theorem two_zpow_eq_natCast {k : ℤ} (hk : 0 ≤ k) : (2 : ℚ) ^ k = ((2 ^ k.toNat : ℕ) : ℚ) := by
  lift k to ℕ using hk
  simp

theorem roundToGrid_intCast {n : ℤ} (h : |n| ≤ 2 ^ 53) : roundToGrid (n : ℚ) = n := by
  by_cases h0 : n = 0
  · subst h0; simp [roundToGrid]
  have hq : |(n : ℚ)| ≤ 2 ^ 53 := by exact_mod_cast h
  have h1q : (1 : ℚ) ≤ |(n : ℚ)| := by
    have : (1 : ℤ) ≤ |n| := Int.one_le_abs h0
    exact_mod_cast this
  rcases lt_or_eq_of_le h with hlt | heq
  · -- the unit in the last place divides one
    set e := Int.log 2 |(n : ℚ)| with he
    have hpos : 0 < |(n : ℚ)| := by linarith
    have h1 : (2 : ℚ) ^ e ≤ |(n : ℚ)| := Int.zpow_log_le_self (by norm_num) hpos
    have h2 : |(n : ℚ)| < (2 : ℚ) ^ (e + 1) := Int.lt_zpow_succ_log_self (by norm_num) _
    have he0 : 0 ≤ e := (Int.zpow_le_iff_le_log (b := 2) (by norm_num) hpos).mp (by simpa using h1q)
    have he52 : e < 53 := by
      have hlt' : |(n : ℚ)| < ((2 : ℕ) : ℚ) ^ (53 : ℤ) := by
        have : |(n : ℚ)| < 2 ^ 53 := by exact_mod_cast hlt
        rw [show (53 : ℤ) = ((53 : ℕ) : ℤ) by rfl, zpow_natCast]
        exact_mod_cast this
      exact (Int.lt_zpow_iff_log_lt (b := 2) (by norm_num) hpos).mp hlt'
    rw [roundToGrid_eq (by omega) h1 h2]
    have hU : (2 : ℚ) ^ (e - 52) = 1 / ((2 ^ (52 - e).toNat : ℕ) : ℚ) := by
      rw [← two_zpow_eq_natCast (by omega), one_div, ← zpow_neg]
      congr 1; omega
    rw [hU]
    have : (n : ℚ) / (1 / ((2 ^ (52 - e).toNat : ℕ) : ℚ)) = ((n * (2 ^ (52 - e).toNat : ℕ) : ℤ) : ℚ) := by
      push_cast; field_simp
    rw [this, roundNearestEven_intCast]
    push_cast; field_simp
  · have h1 : (2 : ℚ) ^ (53 : ℤ) ≤ |(n : ℚ)| := by
      have : (2 : ℚ) ^ 53 ≤ |(n : ℚ)| := by exact_mod_cast heq.ge
      rw [show (53 : ℤ) = ((53 : ℕ) : ℤ) by rfl, zpow_natCast]
      exact this
    have h2 : |(n : ℚ)| < (2 : ℚ) ^ ((53 : ℤ) + 1) := by
      have : |(n : ℚ)| ≤ 2 ^ 53 := hq
      calc |(n : ℚ)| ≤ 2 ^ 53 := this
        _ < (2 : ℚ) ^ ((53 : ℤ) + 1) := by norm_num
    rw [roundToGrid_eq (by norm_num) h1 h2]
    have hn : n = 2 ^ 53 ∨ n = -2 ^ 53 := by
      rcases abs_cases n with ⟨h3, _⟩ | ⟨h3, _⟩ <;> [left; right] <;> omega
    have hu : (2 : ℚ) ^ ((53 : ℤ) - 52) = 2 := by norm_num
    rw [hu]
    rcases hn with rfl | rfl
    · have : (((2 : ℤ) ^ 53 : ℤ) : ℚ) / 2 = (((2 : ℤ) ^ 52 : ℤ) : ℚ) := by norm_num
      rw [this, roundNearestEven_intCast]; norm_num
    · have h4 : ((-2 ^ 53 : ℤ) : ℚ) / 2 = (((-2 : ℤ) ^ 52 * (-1) : ℤ) : ℚ) := by norm_num
      rw [h4, roundNearestEven_intCast]; norm_num

theorem Float64.round_intCast {n : ℤ} (h : |n| ≤ 2 ^ 53) :
    Float64.round (n : ℚ) = Float64.finite n := by
  have hq : |(n : ℚ)| ≤ 2 ^ 53 := by exact_mod_cast h
  have hb := abs_le.mp hq
  unfold Float64.round
  simp only [roundToGrid_intCast h]
  rw [if_neg, if_neg]
  · intro h'
    have h5 : (-(2:ℚ) ^ 1024) < -(2 ^ 53) := by norm_num
    linarith [hb.1]
  · have h5 : (2 : ℚ) ^ 53 < 2 ^ 1024 := by norm_num
    intro h'
    linarith [hb.2]

theorem Float64.ofInt_exact {n : ℤ} (h : |n| ≤ 2 ^ 53) :
    Float64.ofInt n = Float64.finite n := Float64.round_intCast h


/-- Rounding a positive non-integer keeps its ceiling, as long as the ceiling is
at most `2 ^ 53` and the value clears the integer below it by more than that
integer's half unit in the last place. -/
theorem roundToGrid_ceil {x : ℚ} (hx : 0 < x) (hmin : (2 : ℚ) ^ (-1022 : ℤ) ≤ x)
    (hc : ⌈x⌉ ≤ 2 ^ 53) (hgap : (⌈x⌉ : ℚ) - 1 < (x - (⌈x⌉ - 1)) * 2 ^ 53) :
    (⌈x⌉ : ℚ) - 1 < roundToGrid x ∧ roundToGrid x ≤ ⌈x⌉ := by
  by_cases hint : x = (⌈x⌉ : ℚ)
  · have hcpos : 0 < ⌈x⌉ := Int.ceil_pos.mpr hx
    have habs : |⌈x⌉| ≤ 2 ^ 53 := by rw [abs_of_pos hcpos]; exact hc
    have := roundToGrid_intCast habs
    rw [← hint] at this
    rw [this]
    constructor <;> linarith
  have hxc : x < (⌈x⌉ : ℚ) := lt_of_le_of_ne (Int.le_ceil x) hint
  have hcpos : 0 < ⌈x⌉ := Int.ceil_pos.mpr hx
  have hkx : (⌈x⌉ : ℚ) - 1 < x := by
    have := Int.ceil_lt_add_one x
    linarith
  have habs : |x| = x := abs_of_pos hx
  set c := ⌈x⌉ with hcdef
  set e := Int.log 2 x with he
  have h1 : (2 : ℚ) ^ e ≤ x := Int.zpow_log_le_self (by norm_num) hx
  have h2 : x < (2 : ℚ) ^ (e + 1) := Int.lt_zpow_succ_log_self (by norm_num) _
  have hemin : -1022 ≤ e :=
    (Int.zpow_le_iff_le_log (b := 2) (by norm_num) hx).mp (by exact_mod_cast hmin)
  have he52 : e < 53 := by
    have hlt' : x < ((2 : ℕ) : ℚ) ^ (53 : ℤ) := by
      rw [show (53 : ℤ) = ((53 : ℕ) : ℤ) by rfl, zpow_natCast]
      have : (c : ℚ) ≤ 2 ^ 53 := by exact_mod_cast hc
      push_cast
      linarith
    exact (Int.lt_zpow_iff_log_lt (b := 2) (by norm_num) hx).mp hlt'
  have hU : (2 : ℚ) ^ (e - 52) = 1 / ((2 ^ (52 - e).toNat : ℕ) : ℚ) := by
    rw [← two_zpow_eq_natCast (by omega), one_div, ← zpow_neg]
    congr 1; omega
  set U : ℕ := 2 ^ (52 - e).toNat with hUdef
  have hUpos : (0 : ℚ) < (U : ℚ) := by
    have : 0 < U := by positivity
    exact_mod_cast this
  have hUe : (U : ℚ) * 2 ^ e = 2 ^ 52 := by
    rw [hUdef, ← two_zpow_eq_natCast (by omega), ← zpow_add₀ (by norm_num)]
    rw [show (52 - e + e : ℤ) = ((52 : ℕ) : ℤ) by push_cast; ring, zpow_natCast]
  -- the exponent bounds the distance to the integer below
  have hgap2 : (2 : ℚ) ^ e < (x - (c - 1)) * 2 ^ 53 := by
    by_cases hk : c = 1
    · rw [hk]; push_cast
      have : x ≤ x * 2 ^ 53 - 0 := by nlinarith
      have h53 : (1 : ℚ) < 2 ^ 53 := by norm_num
      nlinarith
    · have hc2 : 2 ≤ c := by omega
      have hx1 : (1 : ℚ) ≤ x := by
        have : ((2 : ℤ) : ℚ) ≤ (c : ℚ) := by exact_mod_cast hc2
        push_cast at this
        linarith
      have he0 : 0 ≤ e :=
        (Int.zpow_le_iff_le_log (b := 2) (by norm_num) hx).mp (by simpa using hx1)
      have hcast : (2 : ℚ) ^ e = (((2 ^ e.toNat : ℕ) : ℤ) : ℚ) := by
        rw [two_zpow_eq_natCast he0]; push_cast; rfl
      have hlt : (((2 ^ e.toNat : ℕ) : ℤ) : ℚ) < (c : ℚ) := by
        rw [← hcast]; linarith
      have hlt' : ((2 ^ e.toNat : ℕ) : ℤ) < c := by exact_mod_cast hlt
      have hle : ((2 ^ e.toNat : ℕ) : ℤ) ≤ c - 1 := by omega
      have hle' : (2 : ℚ) ^ e ≤ (c : ℚ) - 1 := by
        rw [hcast]; exact_mod_cast hle
      linarith
  rw [roundToGrid_eq hemin (by rw [habs]; exact h1) (by rw [habs]; exact h2), hU]
  have hdiv : x / (1 / (U : ℚ)) = x * U := by field_simp
  rw [hdiv]
  have hup : roundNearestEven (x * U) ≤ c * U := by
    apply roundNearestEven_le
    push_cast
    exact mul_le_mul_of_nonneg_right hxc.le hUpos.le
  have hlo : (c - 1) * U + 1 ≤ roundNearestEven (x * U) := by
    apply succ_le_roundNearestEven
    push_cast
    have h3 : (2 : ℚ) ^ e * U < (x - (c - 1)) * 2 ^ 53 * U :=
      mul_lt_mul_of_pos_right hgap2 hUpos
    have h4 : (2 : ℚ) ^ e * U = 2 ^ 52 := by rw [mul_comm]; exact hUe
    rw [h4] at h3
    have h5 : (2 : ℚ) ^ 53 = 2 * 2 ^ 52 := by norm_num
    rw [h5] at h3
    have h6 : (0 : ℚ) < 2 ^ 52 := by positivity
    nlinarith
  have hupq : (roundNearestEven (x * U) : ℚ) ≤ c * U := by exact_mod_cast hup
  have hloq : ((c : ℚ) - 1) * U + 1 ≤ (roundNearestEven (x * U) : ℚ) := by exact_mod_cast hlo
  constructor
  · rw [mul_one_div, lt_div_iff₀ hUpos]
    linarith
  · rw [mul_one_div, div_le_iff₀ hUpos]
    exact hupq


theorem roundToGrid_large {x : ℚ} (h1 : 2 ^ 53 ≤ x) (h2 : x ≤ 2 ^ 63) :
    2 ^ 53 ≤ roundToGrid x ∧ roundToGrid x ≤ 2 ^ 63 := by
  have hx : 0 < x := lt_of_lt_of_le (by norm_num) h1
  have habs : |x| = x := abs_of_pos hx
  set e := Int.log 2 x with he
  have hl : (2 : ℚ) ^ e ≤ x := Int.zpow_log_le_self (by norm_num) hx
  have hr : x < (2 : ℚ) ^ (e + 1) := Int.lt_zpow_succ_log_self (by norm_num) _
  have he53 : 53 ≤ e := by
    apply (Int.zpow_le_iff_le_log (b := 2) (by norm_num) hx).mp
    rw [show (53 : ℤ) = ((53 : ℕ) : ℤ) by rfl, zpow_natCast]
    exact_mod_cast h1
  have he63 : e < 64 := by
    apply (Int.lt_zpow_iff_log_lt (b := 2) (by norm_num) hx).mp
    rw [show (64 : ℤ) = ((64 : ℕ) : ℤ) by rfl, zpow_natCast]
    have : (2 : ℚ) ^ 63 < 2 ^ 64 := by norm_num
    push_cast
    linarith
  have hemin : -1022 ≤ e := by omega
  rw [roundToGrid_eq hemin (by rw [habs]; exact hl) (by rw [habs]; exact hr)]
  have hupos : (0 : ℚ) < 2 ^ (e - 52) := zpow_pos (by norm_num) _
  have hm1 : ((2 ^ (105 - e).toNat : ℕ) : ℚ) * 2 ^ (e - 52) = 2 ^ 53 := by
    rw [← two_zpow_eq_natCast (by omega), ← zpow_add₀ (by norm_num)]
    rw [show (105 - e + (e - 52) : ℤ) = ((53 : ℕ) : ℤ) by push_cast; ring, zpow_natCast]
  have hm2 : ((2 ^ (115 - e).toNat : ℕ) : ℚ) * 2 ^ (e - 52) = 2 ^ 63 := by
    rw [← two_zpow_eq_natCast (by omega), ← zpow_add₀ (by norm_num)]
    rw [show (115 - e + (e - 52) : ℤ) = ((63 : ℕ) : ℤ) by push_cast; ring, zpow_natCast]
  have hlo : ((2 ^ (105 - e).toNat : ℕ) : ℤ) ≤ roundNearestEven (x / 2 ^ (e - 52)) := by
    apply le_roundNearestEven
    rw [le_div_iff₀ hupos]
    push_cast at hm1 ⊢
    rw [hm1]; exact h1
  have hhi : roundNearestEven (x / 2 ^ (e - 52)) ≤ ((2 ^ (115 - e).toNat : ℕ) : ℤ) := by
    apply roundNearestEven_le
    rw [div_le_iff₀ hupos]
    push_cast at hm2 ⊢
    rw [hm2]; exact h2
  have hloq : (((2 ^ (105 - e).toNat : ℕ) : ℤ) : ℚ) ≤ roundNearestEven (x / 2 ^ (e - 52)) := by
    exact_mod_cast hlo
  have hhiq : (roundNearestEven (x / 2 ^ (e - 52)) : ℚ) ≤ (((2 ^ (115 - e).toNat : ℕ) : ℤ) : ℚ) := by
    exact_mod_cast hhi
  push_cast at hloq hhiq
  constructor
  · rw [← hm1]
    push_cast
    exact mul_le_mul_of_nonneg_right hloq hupos.le
  · rw [← hm2]
    push_cast
    exact mul_le_mul_of_nonneg_right hhiq hupos.le

/-- The conversion of a positive `int`: exact up to `2 ^ 53`, and at least
`2 ^ 53` above it. -/
theorem Float64.ofInt_pos {p : ℤ} (hp0 : 0 < p) (hp : p ≤ maxInt) :
    ∃ p' : ℚ, Float64.ofInt p = Float64.finite p' ∧ 0 < p' ∧ p' ≤ 2 ^ 63 ∧
      (p' = p ∨ (2 ^ 53 ≤ p' ∧ 2 ^ 53 < p)) := by
  have hpq : (p : ℚ) ≤ 2 ^ 63 := by
    have : p ≤ 2 ^ 63 := by unfold maxInt at hp; omega
    exact_mod_cast this
  by_cases hsmall : p ≤ 2 ^ 53
  · refine ⟨p, Float64.ofInt_exact (by rw [abs_of_pos hp0]; exact hsmall), by exact_mod_cast hp0,
      hpq, Or.inl rfl⟩
  · have hbig : 2 ^ 53 < p := by omega
    have hbigq : (2 : ℚ) ^ 53 ≤ p := by exact_mod_cast hbig.le
    obtain ⟨hlo, hhi⟩ := roundToGrid_large hbigq hpq
    refine ⟨roundToGrid p, ?_, by linarith [show (0 : ℚ) < 2 ^ 53 by norm_num], hhi,
      Or.inr ⟨hlo, hbig⟩⟩
    unfold Float64.ofInt Float64.round
    simp only
    have h63 : (2 : ℚ) ^ 63 < 2 ^ 1024 := by norm_num
    rw [if_neg (by linarith), if_neg (by linarith [show (0 : ℚ) < 2 ^ 53 by norm_num, show (0 : ℚ) < 2 ^ 1024 by norm_num])]


theorem Float64.round_zero : Float64.round 0 = Float64.finite 0 := by
  unfold Float64.round roundToGrid
  norm_num

theorem Float64.toInt_ceil_intCast (impl : Float64 → Int) {c : ℤ} (h0 : 0 ≤ c)
    (h1 : c ≤ 2 ^ 53) : Float64.toInt impl (Float64.finite (c : ℚ)) = c := by
  unfold Float64.toInt
  simp only
  have hq : (0 : ℚ) ≤ (c : ℚ) := by exact_mod_cast h0
  rw [if_pos hq, Int.floor_intCast, if_pos]
  unfold minInt maxInt
  constructor <;> omega

theorem Float64.div_finite (a : ℚ) {b : ℚ} (hb : b ≠ 0) :
    Float64.div (Float64.finite a) (Float64.finite b) = Float64.round (a / b) := by
  simp [Float64.div, hb]

theorem Float64.div_finite_zero (a : ℚ) :
    Float64.div (Float64.finite a) (Float64.finite 0) =
      if a = 0 then Float64.nan else if 0 < a then Float64.posInf else Float64.negInf := by
  simp [Float64.div]

/-- Below `2 ^ 53` rows the floating-point computation of the page count is the
exact ceiling of the quotient. -/
theorem GetTotalPages_eq_ceil (impl : Float64 → Int) {t p : ℤ} (ht0 : 0 ≤ t)
    (ht : t ≤ 2 ^ 53) (hp0 : 0 < p) (hp : p ≤ maxInt) :
    GetTotalPages impl t p = ⌈(t : ℚ) / p⌉ := by
  obtain ⟨p', hp', hp'pos, hp'max, hcase⟩ := Float64.ofInt_pos hp0 hp
  have hpq : (0 : ℚ) < p := by exact_mod_cast hp0
  have htq : (t : ℚ) ≤ 2 ^ 53 := by exact_mod_cast ht
  have hp'1 : (1 : ℚ) ≤ p' := by
    rcases hcase with h | ⟨h, _⟩
    · rw [h]; exact_mod_cast hp0
    · linarith [show (1 : ℚ) ≤ 2 ^ 53 by norm_num]
  unfold GetTotalPages
  simp only
  rw [hp', Float64.ofInt_exact (by rw [abs_of_nonneg ht0]; exact ht)]
  rw [Float64.div_finite _ hp'pos.ne']
  rcases eq_or_lt_of_le ht0 with h0 | h0
  · subst h0
    simp only [Int.cast_zero, zero_div, Float64.round_zero, Float64.ceil, Int.ceil_zero]
    exact Float64.toInt_ceil_intCast impl (c := 0) le_rfl (by norm_num)
  have ht0q : (0 : ℚ) < t := by exact_mod_cast h0
  have ht1q : (1 : ℚ) ≤ t := by exact_mod_cast h0
  have hx : (0 : ℚ) < t / p' := div_pos ht0q hp'pos
  have hxle : (t : ℚ) / p' ≤ t := div_le_self ht0q.le hp'1
  have hmin : (2 : ℚ) ^ (-1022 : ℤ) ≤ t / p' := by
    rw [le_div_iff₀ hp'pos]
    have h1 : (2 : ℚ) ^ (-1022 : ℤ) * p' ≤ 2 ^ (-1022 : ℤ) * 2 ^ 63 :=
      mul_le_mul_of_nonneg_left hp'max (by positivity)
    have h2 : (2 : ℚ) ^ (-1022 : ℤ) * 2 ^ 63 ≤ 1 := by
      rw [zpow_neg, show (1022 : ℤ) = ((1022 : ℕ) : ℤ) by rfl, zpow_natCast]
      norm_num
    linarith
  have hc : ⌈(t : ℚ) / p'⌉ ≤ 2 ^ 53 := by
    apply Int.ceil_le.mpr
    push_cast
    linarith
  have hceq : ⌈(t : ℚ) / p'⌉ = ⌈(t : ℚ) / p⌉ := by
    rcases hcase with h | ⟨h, hbig⟩
    · rw [h]
    · have hbigq : (2 : ℚ) ^ 53 < p := by exact_mod_cast hbig
      have e1 : ⌈(t : ℚ) / p'⌉ = 1 := by
        rw [Int.ceil_eq_iff]
        constructor
        · simpa using hx
        · rw [div_le_iff₀ hp'pos]; push_cast; linarith
      have e2 : ⌈(t : ℚ) / p⌉ = 1 := by
        rw [Int.ceil_eq_iff]
        constructor
        · simpa using div_pos ht0q hpq
        · rw [div_le_iff₀ hpq]; push_cast; linarith
      rw [e1, e2]
  have hgap : (⌈(t : ℚ) / p'⌉ : ℚ) - 1 < ((t : ℚ) / p' - (⌈(t : ℚ) / p'⌉ - 1)) * 2 ^ 53 := by
    have hk : (⌈(t : ℚ) / p'⌉ : ℚ) - 1 < (t : ℚ) / p' := by
      have := Int.ceil_lt_add_one ((t : ℚ) / p')
      linarith
    rcases hcase with h | ⟨h, hbig⟩
    · subst h
      -- an integer numerator clears the integer below by at least `1 / p`
      have hkp : (⌈(t : ℚ) / p⌉ - 1) * p < t := by
        have h1 := (lt_div_iff₀ hpq).mp hk
        exact_mod_cast h1
      have hkp1 : (⌈(t : ℚ) / p⌉ - 1) * p + 1 ≤ t := by omega
      have hkp1q : ((⌈(t : ℚ) / p⌉ : ℚ) - 1) * p + 1 ≤ t := by exact_mod_cast hkp1
      have hstep : (1 : ℚ) / p ≤ (t : ℚ) / p - (⌈(t : ℚ) / p⌉ - 1) := by
        rw [le_sub_iff_add_le, le_div_iff₀ hpq, add_mul, one_div, inv_mul_cancel₀ hpq.ne']
        linarith
      have h53 : (t : ℚ) / p ≤ 1 / p * 2 ^ 53 := by
        rw [one_div, inv_mul_eq_div]
        exact div_le_div_of_nonneg_right htq hpq.le
      have : (1 : ℚ) / p * 2 ^ 53 ≤ ((t : ℚ) / p - (⌈(t : ℚ) / p⌉ - 1)) * 2 ^ 53 :=
        mul_le_mul_of_nonneg_right hstep (by positivity)
      linarith
    · have e1 : ⌈(t : ℚ) / p'⌉ = 1 := by
        rw [Int.ceil_eq_iff]
        constructor
        · simpa using hx
        · rw [div_le_iff₀ hp'pos]; push_cast; linarith
      rw [e1]
      push_cast
      have : (0 : ℚ) < (t : ℚ) / p' * 2 ^ 53 := by positivity
      linarith
  obtain ⟨hlo, hhi⟩ := roundToGrid_ceil hx hmin hc hgap
  have hcpos : 0 < ⌈(t : ℚ) / p'⌉ := Int.ceil_pos.mpr hx
  have hcq : (⌈(t : ℚ) / p'⌉ : ℚ) ≤ 2 ^ 53 := by exact_mod_cast hc
  have hc1q : (1 : ℚ) ≤ (⌈(t : ℚ) / p'⌉ : ℚ) := by exact_mod_cast hcpos
  have hround : Float64.round ((t : ℚ) / p') = Float64.finite (roundToGrid ((t : ℚ) / p')) := by
    unfold Float64.round
    simp only
    have h53 : (2 : ℚ) ^ 53 < 2 ^ 1024 := by norm_num
    rw [if_neg (by linarith), if_neg (by linarith [show (0 : ℚ) < 2 ^ 1024 by norm_num])]
  rw [hround]
  have hceil : ⌈roundToGrid ((t : ℚ) / p')⌉ = ⌈(t : ℚ) / p'⌉ := by
    rw [Int.ceil_eq_iff]
    exact ⟨hlo, hhi⟩
  simp only [Float64.ceil, hceil]
  rw [Float64.toInt_ceil_intCast impl hcpos.le hc, hceq]

/-! ## Machine integer facts -/

theorem wrapInt_of_isInt {n : Int} (h : IsInt n) : wrapInt n = n := by
  unfold IsInt minInt maxInt at h
  unfold wrapInt
  omega

theorem wrapInt_mul_wrapInt (a b : Int) : wrapInt (wrapInt a * b) = wrapInt (a * b) := by
  unfold wrapInt
  have h : (a + 2 ^ 63) % 2 ^ 64 - 2 ^ 63 = a - 2 ^ 64 * ((a + 2 ^ 63) / 2 ^ 64) := by
    have := Int.emod_add_ediv (a + 2 ^ 63) (2 ^ 64)
    omega
  rw [h]
  have h2 : (a - 2 ^ 64 * ((a + 2 ^ 63) / 2 ^ 64)) * b + 2 ^ 63
      = (a * b + 2 ^ 63) + 2 ^ 64 * (-(((a + 2 ^ 63) / 2 ^ 64) * b)) := by ring
  rw [h2, Int.add_mul_emod_self_left]

theorem tdiv_isInt {x y : Int} (hx : IsInt x) (hy : y ≠ 0) (hc : ¬ (x = minInt ∧ y = -1)) :
    IsInt (Int.tdiv x y) := by
  unfold IsInt minInt maxInt at *
  have habs : (Int.tdiv x y).natAbs ≤ x.natAbs := by
    rw [Int.natAbs_tdiv]
    exact Nat.div_le_self _ _
  by_cases hy1 : y = -1
  · subst hy1
    have : Int.tdiv x (-1) = -x := by
      rw [Int.tdiv_neg, Int.tdiv_one]
    rw [this]
    have : x ≠ -2 ^ 63 := fun h => hc ⟨h, rfl⟩
    omega
  · by_cases hy2 : y = 1
    · subst hy2
      rw [Int.tdiv_one]; omega
    · have h2 : 2 ≤ y.natAbs := by omega
      have habs2 : (Int.tdiv x y).natAbs ≤ x.natAbs / 2 := by
        rw [Int.natAbs_tdiv]
        calc x.natAbs / y.natAbs ≤ x.natAbs / 2 := Nat.div_le_div_left h2 (by norm_num)
          _ ≤ x.natAbs / 2 := le_rfl
      omega

theorem intDiv_of_ne_zero {x y : Int} (hx : IsInt x) (hy : y ≠ 0) :
    intDiv x y = some (if x = minInt ∧ y = -1 then minInt else Int.tdiv x y) := by
  unfold intDiv
  rw [if_neg hy]
  by_cases hc : x = minInt ∧ y = -1
  · rw [if_pos hc, hc.1, hc.2]
    rfl
  · rw [if_neg hc, wrapInt_of_isInt (tdiv_isInt hx hy hc)]

/-! ## The response builder -/

theorem GetHasMore_of_ne_zero (currentPage : Int) {totalCount pageSize : Int}
    (h : pageSize ≠ 0) :
    GetHasMore currentPage totalCount pageSize =
      some (decide (currentPage < wrapInt (Int.tdiv totalCount pageSize))) := by
  simp [GetHasMore, intDiv, h]

theorem GetHasMore_zero (currentPage totalCount : Int) :
    GetHasMore currentPage totalCount 0 = none := by
  simp [GetHasMore, intDiv]

theorem PaginatedResponse_of_ne_zero {α : Type} (impl : Float64 → Int) (count : Int)
    (pq : PaginationQuery) (list : Slice α) (h : pq.Size ≠ 0) :
    PaginatedResponse impl count pq list = some
      { TotalCount := count
        TotalPages := GetTotalPages impl count pq.Size
        Page := pq.Page
        Size := pq.Size
        HasMore := decide (pq.Page < wrapInt (Int.tdiv count pq.Size))
        Values := list } := by
  simp [PaginatedResponse, PaginationQuery.GetSize, PaginationQuery.GetPage,
    GetHasMore_of_ne_zero _ h]

theorem PaginatedResponse_zero {α : Type} (impl : Float64 → Int) (count : Int)
    (pq : PaginationQuery) (list : Slice α) (h : pq.Size = 0) :
    PaginatedResponse impl count pq list = none := by
  simp [PaginatedResponse, PaginationQuery.GetSize, h, GetHasMore_zero]

/-- C1, evaluated where it fails: for 15 rows in pages of 10, the response
for page 1 reports 2 pages in total and yet no further page. -/
theorem PaginatedResponse_partial_last_page {α : Type} (impl : Float64 → Int)
    (list : Slice α) :
    PaginatedResponse impl 15 { Size := 10, Page := 1, OrderBy := "", OrderDir := "" } list =
      some
        { TotalCount := 15
          TotalPages := 2
          Page := 1
          Size := 10
          HasMore := false
          Values := list } := by
  rw [PaginatedResponse_of_ne_zero impl 15 _ list (by decide)]
  have h : GetTotalPages impl 15 10 = 2 := by
    rw [GetTotalPages_eq_ceil impl (by norm_num) (by norm_num) (by norm_num) (by decide),
      Int.ceil_eq_iff]
    norm_num
  simp only [h]
  rfl

/-- C2, refuted: with a page size of 0 the call panics (integer division by
zero in `GetHasMore`) and no response is returned. -/
theorem PaginatedResponse_size_zero_panics :
    PaginatedResponse amd64 150 { Size := 0, Page := 1, OrderBy := "", OrderDir := "" }
      (Slice.elems [1, 2, 3] : Slice Nat) = none :=
  PaginatedResponse_zero _ _ _ _ rfl

/-- C2, amended: `PaginatedResponse` returns a response exactly when the page
size of the query is not 0, whatever the count, the page, the sign of the size
and the item list. -/
theorem PaginatedResponse_succeeds_iff {α : Type} (impl : Float64 → Int) (count : Int)
    (pq : PaginationQuery) (list : Slice α) :
    (∃ r, PaginatedResponse impl count pq list = some r) ↔ pq.Size ≠ 0 := by
  constructor
  · rintro ⟨r, hr⟩ h0
    rw [PaginatedResponse_zero impl count pq list h0] at hr
    exact Option.noConfusion hr
  · intro h
    exact ⟨_, PaginatedResponse_of_ne_zero impl count pq list h⟩

/-- C3, refuted: `GetHasMore(1, 150, 0)` does not return false. -/
theorem GetHasMore_zero_not_false : GetHasMore 1 150 0 ≠ some false := by
  decide

/-- C3, amended: with a page size of 0, `GetHasMore` panics on the integer
division by zero for every current page and total count; it returns no
value. -/
theorem GetHasMore_zero_panics (currentPage totalCount : Int) :
    GetHasMore currentPage totalCount 0 = none :=
  GetHasMore_zero currentPage totalCount

theorem roundToGrid_tie_example : roundToGrid (2 ^ 53 + 1) = 2 ^ 53 := by
  have h1 : (2 : ℚ) ^ (53 : ℤ) ≤ |(2 ^ 53 + 1 : ℚ)| := by
    rw [abs_of_pos (by norm_num)]; norm_num
  have h2 : |(2 ^ 53 + 1 : ℚ)| < (2 : ℚ) ^ ((53 : ℤ) + 1) := by
    rw [abs_of_pos (by norm_num)]; norm_num
  rw [roundToGrid_eq (by norm_num) h1 h2]
  have hu : (2 : ℚ) ^ ((53 : ℤ) - 52) = 2 := by norm_num
  rw [hu]
  have hf : ⌊((2 : ℚ) ^ 53 + 1) / 2⌋ = 2 ^ 52 := by
    rw [Int.floor_eq_iff]; norm_num
  have hr : roundNearestEven (((2 : ℚ) ^ 53 + 1) / 2) = 2 ^ 52 := by
    unfold roundNearestEven
    simp only [hf]
    norm_num
  rw [hr]
  norm_num

/-- C4, refuted: for `2 ^ 53 + 1` rows in pages of 1 the conversion to
`float64` loses the last unit, and the page count is `2 ^ 53`, one less than
the ceiling of the quotient. -/
theorem GetTotalPages_not_ceil_above_two_pow_53 :
    GetTotalPages amd64 9007199254740993 1 = 9007199254740992 ∧
      ⌈((9007199254740993 : Int) : ℚ) / ((1 : Int) : ℚ)⌉ = 9007199254740993 ∧
      ¬ (9007199254740993 : Int) ≤ GetTotalPages amd64 9007199254740993 1 * 1 := by
  have h : GetTotalPages amd64 9007199254740993 1 = 9007199254740992 := by
    unfold GetTotalPages
    simp only
    have e1 : Float64.ofInt 9007199254740993 = Float64.finite (2 ^ 53) := by
      unfold Float64.ofInt Float64.round
      have : ((9007199254740993 : Int) : ℚ) = 2 ^ 53 + 1 := by norm_num
      rw [this, roundToGrid_tie_example]
      norm_num
    have e2 : Float64.ofInt 1 = Float64.finite 1 := by
      have := Float64.ofInt_exact (n := 1) (by norm_num)
      simpa using this
    rw [e1, e2, Float64.div_finite _ one_ne_zero]
    have e3 : Float64.round ((2 : ℚ) ^ 53 / 1) = Float64.finite ((2 ^ 53 : ℤ) : ℚ) := by
      have := Float64.round_intCast (n := 2 ^ 53) (by norm_num)
      rw [← this]; norm_num
    rw [e3]
    simp only [Float64.ceil, Int.ceil_intCast]
    rw [Float64.toInt_ceil_intCast amd64 (by norm_num) (by norm_num)]
    norm_num
  refine ⟨h, ?_, ?_⟩
  · rw [Int.ceil_eq_iff]; norm_num
  · rw [h]; norm_num

/-- C4, amended: for every total count from 0 to `2 ^ 53` and every page size
greater than 0, `GetTotalPages` is the ceiling of the exact quotient, that is the
least integer n with `n * pageSize ≥ totalCount`. -/
theorem GetTotalPages_is_ceiling (impl : Float64 → Int) (totalCount pageSize : Int)
    (h0 : 0 ≤ totalCount) (h53 : totalCount ≤ 2 ^ 53) (hp : 0 < pageSize)
    (hmax : pageSize ≤ maxInt) :
    GetTotalPages impl totalCount pageSize = ⌈(totalCount : ℚ) / (pageSize : ℚ)⌉ ∧
      totalCount ≤ GetTotalPages impl totalCount pageSize * pageSize ∧
      ∀ n : Int, totalCount ≤ n * pageSize → GetTotalPages impl totalCount pageSize ≤ n := by
  have hpq : (0 : ℚ) < pageSize := by exact_mod_cast hp
  have h := GetTotalPages_eq_ceil impl h0 h53 hp hmax
  refine ⟨h, ?_, ?_⟩
  · rw [h]
    have := Int.le_ceil ((totalCount : ℚ) / (pageSize : ℚ))
    rw [div_le_iff₀ hpq] at this
    exact_mod_cast this
  · intro n hn
    rw [h, Int.ceil_le, div_le_iff₀ hpq]
    exact_mod_cast hn

/-- The amended C4 at 150 rows in pages of 10, 0 rows in pages of 10 and 5 rows
in pages of 10: 15, 0 and 1 pages. -/
theorem GetTotalPages_is_ceiling_witness :
    ((0 : Int) ≤ 150 ∧ (150 : Int) ≤ 2 ^ 53 ∧ (0 : Int) < 10 ∧ (10 : Int) ≤ maxInt) ∧
      GetTotalPages amd64 150 10 = 15 ∧ GetTotalPages amd64 0 10 = 0 ∧
      GetTotalPages amd64 5 10 = 1 := by
  refine ⟨⟨by norm_num, by norm_num, by norm_num, by decide⟩, ?_, ?_, ?_⟩
  · rw [(GetTotalPages_is_ceiling amd64 150 10 (by norm_num) (by norm_num) (by norm_num)
      (by decide)).1, Int.ceil_eq_iff]
    norm_num
  · rw [(GetTotalPages_is_ceiling amd64 0 10 (by norm_num) (by norm_num) (by norm_num)
      (by decide)).1, Int.ceil_eq_iff]
    norm_num
  · rw [(GetTotalPages_is_ceiling amd64 5 10 (by norm_num) (by norm_num) (by norm_num)
      (by decide)).1, Int.ceil_eq_iff]
    norm_num

/-- C5, refuted: the quotient `minInt / -1` does not fit an `int` and wraps
to `minInt`, so `GetHasMore(0, minInt, -1)` is false although 0 is less than the
quotient truncated toward zero, `2 ^ 63`. -/
theorem GetHasMore_wraps_at_minInt :
    GetHasMore 0 (-9223372036854775808) (-1) = some false ∧
      (0 : Int) < Int.tdiv (-9223372036854775808) (-1) := by
  decide

/-- C5, amended: for every current page, every total count that is an `int`
and every page size other than 0, `GetHasMore` is true exactly when the current
page is less than the quotient of total count by page size truncated toward
zero, except for the total count `minInt` with page size -1, where the
quotient wraps to `minInt`. -/
theorem GetHasMore_truncated_quotient (currentPage totalCount pageSize : Int)
    (ht : IsInt totalCount) (hp : pageSize ≠ 0) :
    GetHasMore currentPage totalCount pageSize =
      some (decide (currentPage <
        if totalCount = minInt ∧ pageSize = -1 then minInt
        else Int.tdiv totalCount pageSize)) := by
  unfold GetHasMore
  rw [intDiv_of_ne_zero ht hp]
  rfl

/-- The amended C5 at page 1 and at page 15 of 150 rows in pages of 10. -/
theorem GetHasMore_truncated_quotient_witness :
    (IsInt 150 ∧ (10 : Int) ≠ 0) ∧
      GetHasMore 1 150 10 = some true ∧ GetHasMore 15 150 10 = some false :=
  ⟨⟨by decide, by decide⟩,
    (GetHasMore_truncated_quotient 1 150 10 (by decide) (by decide)).trans (by decide),
    (GetHasMore_truncated_quotient 15 150 10 (by decide) (by decide)).trans (by decide)⟩

/-! ## The query -/

/-- C6, refuted: at page `2 ^ 32 + 1` with size `2 ^ 32` the product
`(page - 1) * size` is `2 ^ 64`, which wraps to 0. -/
theorem GetOffset_wraps :
    PaginationQuery.GetOffset
        { Size := 4294967296, Page := 4294967297, OrderBy := "", OrderDir := "" } = 0 ∧
      ((4294967297 : Int) - 1) * 4294967296 ≠ 0 := by
  decide

/-- C6, amended: `GetOffset` returns 0 when the page is 0, and otherwise
`(page - 1) * size` reduced into the 64-bit range of `int`, which is
`(page - 1) * size` itself whenever that product is an `int`. -/
theorem GetOffset_spec (q : PaginationQuery) :
    (q.Page = 0 → q.GetOffset = 0) ∧
      (q.Page ≠ 0 → q.GetOffset = wrapInt ((q.Page - 1) * q.Size)) ∧
      (q.Page ≠ 0 → IsInt ((q.Page - 1) * q.Size) →
        q.GetOffset = (q.Page - 1) * q.Size) := by
  refine ⟨fun h => by simp [PaginationQuery.GetOffset, h], fun h => ?_, fun h hfit => ?_⟩
  · simp only [PaginationQuery.GetOffset, if_neg h, intMul, intSub]
    exact wrapInt_mul_wrapInt _ _
  · simp only [PaginationQuery.GetOffset, if_neg h, intMul, intSub]
    rw [wrapInt_mul_wrapInt, wrapInt_of_isInt hfit]

/-- The amended C6 at page 1 and page 3 with size 10, and at page 0. -/
theorem GetOffset_spec_witness :
    PaginationQuery.GetOffset { Size := 10, Page := 1, OrderBy := "", OrderDir := "" } = 0 ∧
      PaginationQuery.GetOffset { Size := 10, Page := 3, OrderBy := "", OrderDir := "" } = 20 ∧
      PaginationQuery.GetOffset { Size := 77, Page := 0, OrderBy := "", OrderDir := "" } = 0 :=
  ⟨((GetOffset_spec { Size := 10, Page := 1, OrderBy := "", OrderDir := "" }).2.2
      (by decide) (by decide)).trans (by decide),
    ((GetOffset_spec { Size := 10, Page := 3, OrderBy := "", OrderDir := "" }).2.2
      (by decide) (by decide)).trans (by decide),
    (GetOffset_spec { Size := 77, Page := 0, OrderBy := "", OrderDir := "" }).1 rfl⟩

/-! ## Case folding against `"asc"` -/

theorem char_lt_iff {a b : Char} : a < b ↔ a.toNat < b.toNat := Iff.rfl

theorem char_le_iff {a b : Char} : a ≤ b ↔ a.toNat ≤ b.toNat := Iff.rfl

theorem char_eq_iff {a b : Char} : a = b ↔ a.toNat = b.toNat := by
  constructor
  · intro h; rw [h]
  · intro h
    have := congrArg Char.ofNat h
    simpa using this

/-- Against an ASCII lower-case letter `t` whose orbit is `{u, t}` with `u` its
capital, a rune folds equal exactly when it is `t` or `u`. -/
theorem equalFoldRune_two_orbit (c t u : Char) (ht : t.toNat < 128)
    (hut : t.toNat = u.toNat + 32) (huA : 65 ≤ u.toNat) (huZ : u.toNat ≤ 90)
    (h1 : SimpleFold t = u) (h2 : SimpleFold u = t) :
    equalFoldRune c t = true ↔ c = t ∨ c = u := by
  have hne : u ≠ t := by rw [Ne, char_eq_iff]; omega
  unfold equalFoldRune
  by_cases hct : t = c
  · rw [if_pos hct]; simp [← hct]
  · have hct' : ¬ c = t := fun h => hct h.symm
    have hn : ¬ t.toNat = c.toNat := fun h => hct (char_eq_iff.mpr h)
    rw [if_neg hct]
    simp only [hct', false_or]
    by_cases hlt : t < c
    · have hlt' := char_lt_iff.mp hlt
      have hcu : ¬ c = u := by rw [char_eq_iff]; omega
      simp only [if_pos hlt, hcu, iff_false, RuneSelf]
      by_cases hascii : c.toNat < 128
      · simp only [if_pos hascii, decide_eq_true_eq, char_le_iff]
        have : 'Z'.toNat = 90 := rfl
        omega
      · simp only [if_neg hascii, decide_eq_true_eq, h1]
        have hu_c : u < c := by rw [char_lt_iff]; omega
        simp [foldLoop, hne, hu_c, h2, hct]
    · have hgt : c.toNat < t.toNat := by
        have := mt char_lt_iff.mpr hlt
        omega
      simp only [if_neg hlt, RuneSelf, if_pos ht, decide_eq_true_eq, char_le_iff, char_eq_iff]
      have h65 : 'A'.toNat = 65 := rfl
      have h90 : 'Z'.toNat = 90 := rfl
      have h97 : 'a'.toNat = 97 := rfl
      rw [h65, h90, h97]
      omega

theorem equalFoldRune_a (c : Char) : equalFoldRune c 'a' = true ↔ c = 'a' ∨ c = 'A' :=
  equalFoldRune_two_orbit c 'a' 'A' (by decide) (by decide) (by decide) (by decide)
    (by decide) (by decide)

theorem equalFoldRune_c (c : Char) : equalFoldRune c 'c' = true ↔ c = 'c' ∨ c = 'C' :=
  equalFoldRune_two_orbit c 'c' 'C' (by decide) (by decide) (by decide) (by decide)
    (by decide) (by decide)

/-- The orbit of `s` has a third member, the long s U+017F. -/
theorem equalFoldRune_s (c : Char) :
    equalFoldRune c 's' = true ↔ c = 's' ∨ c = 'S' ∨ c = Char.ofNat 0x17F := by
  have hs : 's'.toNat = 115 := rfl
  have hS : 'S'.toNat = 83 := rfl
  have hl : (Char.ofNat 0x17F).toNat = 383 := rfl
  have f1 : SimpleFold 's' = Char.ofNat 0x17F := by decide
  have f2 : SimpleFold (Char.ofNat 0x17F) = 'S' := by decide
  have f3 : SimpleFold 'S' = 's' := by decide
  unfold equalFoldRune
  by_cases hct : 's' = c
  · rw [if_pos hct]; simp [← hct]
  · have hct' : ¬ c = 's' := fun h => hct h.symm
    have hn : ¬ c.toNat = 115 := fun h => hct' (char_eq_iff.mpr (by rw [h, hs]))
    rw [if_neg hct]
    simp only [hct', false_or]
    by_cases hlt : 's' < c
    · have hlt' : 115 < c.toNat := by have := char_lt_iff.mp hlt; omega
      have hcS : ¬ c = 'S' := by rw [char_eq_iff, hS]; omega
      simp only [if_pos hlt, hcS, false_or, RuneSelf]
      by_cases hascii : c.toNat < 128
      · have hcl : ¬ c = Char.ofNat 0x17F := by rw [char_eq_iff, hl]; omega
        simp only [if_pos hascii, decide_eq_true_eq, char_le_iff, hcl, iff_false]
        have : 'Z'.toNat = 90 := rfl
        omega
      · simp only [if_neg hascii, decide_eq_true_eq, f1]
        by_cases hlong : Char.ofNat 0x17F < c
        · have hlong' : 383 < c.toNat := by have := char_lt_iff.mp hlong; omega
          have hcl : ¬ c = Char.ofNat 0x17F := by rw [char_eq_iff, hl]; omega
          have hSc : 'S' < c := by rw [char_lt_iff, hS]; omega
          have n1 : Char.ofNat 0x17F ≠ 's' := by decide
          have n2 : 'S' ≠ 's' := by decide
          simp [foldLoop, hlong, hSc, n1, n2, f2, f3, hct, hcl]
        · have n1 : Char.ofNat 0x17F ≠ 's' := by decide
          simp only [foldLoop, hlong, and_false, if_false]
          exact eq_comm
    · have hgt : c.toNat < 115 := by
        have := mt char_lt_iff.mpr hlt
        omega
      have hcl : ¬ c = Char.ofNat 0x17F := by rw [char_eq_iff, hl]; omega
      simp only [if_neg hlt, RuneSelf, hcl, or_false, decide_eq_true_eq, char_le_iff,
        char_eq_iff]
      have h65 : 'A'.toNat = 65 := rfl
      have h90 : 'Z'.toNat = 90 := rfl
      have h97 : 'a'.toNat = 97 := rfl
      rw [h65, h90, h97, hs, hS, if_pos (by norm_num)]
      simp only [decide_eq_true_eq]
      omega

theorem foldLoop_self (sr tr : Char) (n : Nat) : foldLoop sr tr n sr = sr := by
  cases n <;> simp [foldLoop]

/-- Every orbit of `SimpleFold` closes within three steps. -/
theorem SimpleFold_orbit (r : Char) :
    SimpleFold r = r ∨ SimpleFold (SimpleFold r) = r ∨
      SimpleFold (SimpleFold (SimpleFold r)) = r := by
  by_cases h : (65 ≤ r.toNat ∧ r.toNat ≤ 90) ∨ (97 ≤ r.toNat ∧ r.toNat ≤ 122) ∨
      r.toNat = 383 ∨ r.toNat = 8490
  · have hr : r = Char.ofNat r.toNat := (Char.ofNat_toNat r).symm
    generalize r.toNat = n at h hr
    subst hr
    rcases h with ⟨h1, h2⟩ | ⟨h1, h2⟩ | h | h
    · interval_cases n <;> decide
    · interval_cases n <;> decide
    · subst h; decide
    · subst h; decide
  · left
    have e1 : ¬ r = 'K' := by rw [char_eq_iff]; show ¬ r.toNat = 75; omega
    have e2 : ¬ r = 'k' := by rw [char_eq_iff]; show ¬ r.toNat = 107; omega
    have e3 : ¬ r = Char.ofNat 0x212A := by rw [char_eq_iff]; show ¬ r.toNat = 8490; omega
    have e4 : ¬ r = 'S' := by rw [char_eq_iff]; show ¬ r.toNat = 83; omega
    have e5 : ¬ r = 's' := by rw [char_eq_iff]; show ¬ r.toNat = 115; omega
    have e6 : ¬ r = Char.ofNat 0x17F := by rw [char_eq_iff]; show ¬ r.toNat = 383; omega
    have e7 : ¬ ('A' ≤ r ∧ r ≤ 'Z') := by
      rw [char_le_iff, char_le_iff]; show ¬ (65 ≤ r.toNat ∧ r.toNat ≤ 90); omega
    have e8 : ¬ ('a' ≤ r ∧ r ≤ 'z') := by
      rw [char_le_iff, char_le_iff]; show ¬ (97 ≤ r.toNat ∧ r.toNat ≤ 122); omega
    unfold SimpleFold
    rw [if_neg e1, if_neg e2, if_neg e3, if_neg e4, if_neg e5, if_neg e6, if_neg e7, if_neg e8]

/-- The three turns given to the orbit walk are enough: more fuel does not
change its result. -/
theorem foldLoop_fuel (sr tr : Char) (k : Nat) :
    foldLoop sr tr (3 + k) (SimpleFold sr) = foldLoop sr tr 3 (SimpleFold sr) := by
  have e : 3 + k = (k + 2) + 1 := by omega
  rw [e]
  rcases SimpleFold_orbit sr with h | h | h
  · rw [h, foldLoop_self, foldLoop_self]
  · simp only [foldLoop, h, foldLoop_self]
  · simp only [foldLoop, h, ne_eq, not_true_eq_false, false_and, if_false]

theorem foldCode_eq_a (c : Char) : foldCode c.toNat = 97 ↔ c = 'a' ∨ c = 'A' := by
  have h1 : 'a'.toNat = 97 := rfl
  have h2 : 'A'.toNat = 65 := rfl
  rw [char_eq_iff, char_eq_iff, h1, h2]
  unfold foldCode
  split_ifs <;> omega

theorem foldCode_eq_c (c : Char) : foldCode c.toNat = 99 ↔ c = 'c' ∨ c = 'C' := by
  have h1 : 'c'.toNat = 99 := rfl
  have h2 : 'C'.toNat = 67 := rfl
  rw [char_eq_iff, char_eq_iff, h1, h2]
  unfold foldCode
  split_ifs <;> omega

theorem foldCode_eq_s (c : Char) :
    foldCode c.toNat = 115 ↔ c = 's' ∨ c = 'S' ∨ c = Char.ofNat 0x17F := by
  have h1 : 's'.toNat = 115 := rfl
  have h2 : 'S'.toNat = 83 := rfl
  have h3 : (Char.ofNat 0x17F).toNat = 383 := rfl
  rw [char_eq_iff, char_eq_iff, char_eq_iff, h1, h2, h3]
  unfold foldCode
  split_ifs <;> omega

/-- Against `"asc"`, `strings.EqualFold` is the specification's
case-insensitive equality. -/
theorem EqualFold_asc_iff (s : String) :
    EqualFold s "asc" = true ↔ EqualsIgnoringCase s "asc" := by
  have hasc : ("asc" : String).data = ['a', 's', 'c'] := rfl
  have hf : (['a', 's', 'c'] : List Char).map (fun c => foldCode c.toNat) = [97, 115, 99] := by
    decide
  unfold EqualFold EqualsIgnoringCase
  rw [hasc, hf]
  rcases s with ⟨_ | ⟨c0, _ | ⟨c1, _ | ⟨c2, _ | ⟨c3, l⟩⟩⟩⟩⟩
  · simp [equalFoldRunes]
  · simp [equalFoldRunes]
  · simp [equalFoldRunes]
  · simp only [equalFoldRunes, List.isEmpty_nil, Bool.and_true, Bool.and_eq_true, List.map_cons,
      List.map_nil, List.cons.injEq, and_true, equalFoldRune_a, equalFoldRune_s,
      equalFoldRune_c, foldCode_eq_a, foldCode_eq_s, foldCode_eq_c]
  · simp [equalFoldRunes]

/-- The spellings that equal `"asc"` case-insensitively: `a` or `A`, then `s`,
`S` or the long s U+017F, then `c` or `C`. -/
theorem EqualsIgnoringCase_asc_iff (s : String) :
    EqualsIgnoringCase s "asc" ↔
      ∃ c0 c1 c2 : Char, s.data = [c0, c1, c2] ∧ (c0 = 'a' ∨ c0 = 'A') ∧
        (c1 = 's' ∨ c1 = 'S' ∨ c1 = Char.ofNat 0x17F) ∧ (c2 = 'c' ∨ c2 = 'C') := by
  have hasc : ("asc" : String).data = ['a', 's', 'c'] := rfl
  have hf : (['a', 's', 'c'] : List Char).map (fun c => foldCode c.toNat) = [97, 115, 99] := by
    decide
  unfold EqualsIgnoringCase
  rw [hasc, hf]
  constructor
  · intro h
    rcases s with ⟨_ | ⟨c0, _ | ⟨c1, _ | ⟨c2, _ | ⟨c3, l⟩⟩⟩⟩⟩
    · simp at h
    · simp at h
    · simp at h
    · simp only [List.map_cons, List.map_nil, List.cons.injEq, and_true, foldCode_eq_a,
        foldCode_eq_s, foldCode_eq_c] at h
      exact ⟨c0, c1, c2, rfl, h⟩
    · simp at h
  · rintro ⟨c0, c1, c2, hs, h⟩
    rw [hs]
    simp only [List.map_cons, List.map_nil, List.cons.injEq, and_true, foldCode_eq_a,
      foldCode_eq_s, foldCode_eq_c]
    exact h

/-- C7: after `SetOrderBy`, `GetOrderBy` is the field, a space and the
direction: the field is `id` for an empty `orderByRaw` and `orderByRaw`
otherwise; the direction is `ASC` when `orderDirRaw` is empty or equals `asc`
case-insensitively and `DESC` for every other string; the result is the same
from every previous state of the query. -/
theorem SetOrderBy_spec (q : PaginationQuery) (orderByRaw orderDirRaw : String) :
    (q.SetOrderBy orderByRaw orderDirRaw).GetOrderBy =
        (if orderByRaw = "" then "id" else orderByRaw) ++ " " ++
          (if orderDirRaw = "" ∨ EqualsIgnoringCase orderDirRaw "asc" then "ASC" else "DESC") ∧
      (∀ q' : PaginationQuery,
        (q'.SetOrderBy orderByRaw orderDirRaw).GetOrderBy =
          (q.SetOrderBy orderByRaw orderDirRaw).GetOrderBy) ∧
      (q.SetOrderBy "" "").GetOrderBy = "id ASC" ∧
      (q.SetOrderBy "first_name" "desc").GetOrderBy = "first_name DESC" ∧
      (q.SetOrderBy "first_name" "DESC").GetOrderBy = "first_name DESC" ∧
      (q.SetOrderBy "first_name" "asc").GetOrderBy = "first_name ASC" := by
  have key : ∀ (p : PaginationQuery) (a b : String),
      (p.SetOrderBy a b).GetOrderBy =
        (if a = "" then "id" else a) ++ " " ++
          (if b = "" ∨ EqualsIgnoringCase b "asc" then "ASC" else "DESC") := by
    intro p a b
    unfold PaginationQuery.SetOrderBy PaginationQuery.GetOrderBy sprintfTwo
    simp only [EqualFold_asc_iff]
    by_cases ha : a = "" <;> by_cases hb : b = "" ∨ EqualsIgnoringCase b "asc" <;>
      simp only [ha, hb, if_true, if_false]
  refine ⟨key q _ _, fun q' => by rw [key, key], ?_, ?_, ?_, ?_⟩ <;>
    · rw [key]; decide

/-! ## Parsing decimal integers -/

theorem decimalValue_nil : decimalValue [] = 0 := by
  simp [decimalValue]

theorem decimalValue_cons (c : Char) (cs : List Char) :
    decimalValue (c :: cs) = (c.toNat - 48) * 10 ^ cs.length + decimalValue cs := by
  unfold decimalValue
  rw [List.reverse_cons, List.map_append, Nat.ofDigits_append]
  simp [Nat.ofDigits_singleton]
  ring

theorem digit_iff (c : Char) : ('0' ≤ c ∧ c ≤ '9') ↔ (48 ≤ c.toNat ∧ c.toNat ≤ 57) := by
  rw [char_le_iff, char_le_iff]
  exact Iff.rfl

/-- The digit loop on a sequence of digits: the value read, or a range error
when it leaves the `uint64` range. -/
theorem parseUintLoop_digits (cs : List Char) :
    ∀ n : Nat, n < 2 ^ 64 → (∀ d ∈ cs, 48 ≤ d.toNat ∧ d.toNat ≤ 57) →
      parseUintLoop cs n =
        if n * 10 ^ cs.length + decimalValue cs < 2 ^ 64 then
          Except.ok (n * 10 ^ cs.length + decimalValue cs)
        else Except.error NumError.ErrRange := by
  induction cs with
  | nil =>
      intro n hn _
      simp only [parseUintLoop, List.length_nil, pow_zero, mul_one, decimalValue_nil, add_zero]
      rw [if_pos hn]
  | cons c cs ih =>
      intro n hn hd
      have hc := hd c (List.mem_cons_self _ _)
      have hcs : ∀ d ∈ cs, 48 ≤ d.toNat ∧ d.toNat ≤ 57 := fun d h =>
        hd d (List.mem_cons_of_mem _ h)
      have hzero : '0'.toNat = 48 := rfl
      have hpow : 1 ≤ 10 ^ cs.length := Nat.one_le_pow _ _ (by norm_num)
      have hval : n * 10 ^ (c :: cs).length + decimalValue (c :: cs) =
          (n * 10 + (c.toNat - 48)) * 10 ^ cs.length + decimalValue cs := by
        rw [decimalValue_cons, List.length_cons, pow_succ]
        ring
      rw [hval]
      unfold parseUintLoop
      rw [if_pos ((digit_iff c).mpr hc)]
      simp only [hzero, maxUint64]
      by_cases hcut : (2 ^ 64 - 1) / 10 + 1 ≤ n
      · rw [if_pos hcut, if_neg]
        have h1 : 2 ^ 64 ≤ n * 10 := by omega
        have h2 : n * 10 ≤ (n * 10 + (c.toNat - 48)) * 10 ^ cs.length := by
          calc n * 10 ≤ n * 10 + (c.toNat - 48) := Nat.le_add_right _ _
            _ = (n * 10 + (c.toNat - 48)) * 1 := (Nat.mul_one _).symm
            _ ≤ (n * 10 + (c.toNat - 48)) * 10 ^ cs.length := Nat.mul_le_mul_left _ hpow
        omega
      · rw [if_neg hcut]
        have h10 : n * 10 % 2 ^ 64 = n * 10 := Nat.mod_eq_of_lt (by omega)
        rw [h10]
        by_cases hov : n * 10 + (c.toNat - 48) < 2 ^ 64
        · have h11 : (n * 10 + (c.toNat - 48)) % 2 ^ 64 = n * 10 + (c.toNat - 48) :=
            Nat.mod_eq_of_lt hov
          rw [h11, if_neg (by omega)]
          exact ih _ hov hcs
        · have h11 : (n * 10 + (c.toNat - 48)) % 2 ^ 64 = n * 10 + (c.toNat - 48) - 2 ^ 64 := by
            rw [Nat.mod_eq_sub_mod (by omega), Nat.mod_eq_of_lt (by omega)]
          rw [h11, if_pos (by omega), if_neg]
          have h2 : n * 10 + (c.toNat - 48) ≤ (n * 10 + (c.toNat - 48)) * 10 ^ cs.length := by
            calc n * 10 + (c.toNat - 48) = (n * 10 + (c.toNat - 48)) * 1 := (Nat.mul_one _).symm
              _ ≤ (n * 10 + (c.toNat - 48)) * 10 ^ cs.length := Nat.mul_le_mul_left _ hpow
          omega

/-- The digit loop fails on a sequence that holds a byte that is not a
digit. -/
theorem parseUintLoop_not_digits (cs : List Char) :
    ∀ n : Nat, (¬ ∀ d ∈ cs, 48 ≤ d.toNat ∧ d.toNat ≤ 57) →
      ∃ err, parseUintLoop cs n = Except.error err := by
  induction cs with
  | nil => intro n h; exact absurd (fun d hd => absurd hd (List.not_mem_nil d)) h
  | cons c cs ih =>
      intro n h
      unfold parseUintLoop
      by_cases hc : '0' ≤ c ∧ c ≤ '9'
      · rw [if_pos hc]
        simp only
        split_ifs
        · exact ⟨_, rfl⟩
        · exact ⟨_, rfl⟩
        · apply ih
          intro hall
          apply h
          intro d hd
          rcases List.mem_cons.mp hd with rfl | hd
          · exact (digit_iff d).mp hc
          · exact hall d hd
      · rw [if_neg hc]
        exact ⟨_, rfl⟩

theorem ParseUint_digits {ds : List Char} (hne : ds ≠ [])
    (hd : ∀ d ∈ ds, 48 ≤ d.toNat ∧ d.toNat ≤ 57) :
    ParseUint ds =
      if decimalValue ds < 2 ^ 64 then Except.ok (decimalValue ds)
      else Except.error NumError.ErrRange := by
  unfold ParseUint
  rw [if_neg hne, parseUintLoop_digits ds 0 (by norm_num) hd]
  simp

theorem ParseUint_not_digits {ds : List Char}
    (h : ¬ (ds ≠ [] ∧ ∀ d ∈ ds, 48 ≤ d.toNat ∧ d.toNat ≤ 57)) :
    ∃ err, ParseUint ds = Except.error err := by
  unfold ParseUint
  by_cases hne : ds = []
  · rw [if_pos hne]; exact ⟨_, rfl⟩
  · rw [if_neg hne]
    exact parseUintLoop_not_digits ds 0 (fun hall => h ⟨hne, hall⟩)

/-- `Atoi` against the specification's reading: it returns the integer the
string denotes when an `int` can hold it, and an error for every other
string. -/
theorem Atoi_spec (s : String) :
    (∀ n, decimalInteger s = some n → IsInt n → Atoi s = Except.ok n) ∧
      (¬ ValidIntString s → ∃ err, Atoi s = Except.error err) := by
  unfold ValidIntString Atoi decimalInteger ParseInt
  rcases hs : s.data with _ | ⟨c, cs⟩
  · simp
  · simp only
    by_cases hds : (if c = '+' ∨ c = '-' then cs else c :: cs) ≠ [] ∧
        ∀ d ∈ (if c = '+' ∨ c = '-' then cs else c :: cs), 48 ≤ d.toNat ∧ d.toNat ≤ 57
    · rw [if_pos hds, ParseUint_digits hds.1 hds.2]
      generalize decimalValue (if c = '+' ∨ c = '-' then cs else c :: cs) = v
      constructor
      · intro n hn hint
        unfold IsInt minInt maxInt at hint
        by_cases hneg : c = '-'
        · simp only [hneg, if_true, Option.some.injEq] at hn
          subst hn
          have hv63 : v ≤ 2 ^ 63 := by omega
          have hw : wrapInt (-wrapInt (v : Int)) = -(v : Int) := by
            unfold wrapInt; omega
          rw [if_pos (by omega)]
          simp only [hneg, decide_True, not_true_eq_false, false_and, if_false, true_and, if_true]
          rw [if_neg (by omega), hw]
        · simp only [hneg, if_false, Option.some.injEq] at hn
          subst hn
          have hv63 : v < 2 ^ 63 := by omega
          have hw : wrapInt (v : Int) = (v : Int) := by
            unfold wrapInt; omega
          rw [if_pos (by omega)]
          simp only [hneg, decide_False, not_false_eq_true, true_and, false_and, if_false,
            Bool.false_eq_true]
          rw [if_neg (by omega), hw]
      · intro hinv
        have hinv' : ¬ IsInt (if c = '-' then -(v : Int) else (v : Int)) := by
          intro h
          exact hinv ⟨_, rfl, h⟩
        unfold IsInt minInt maxInt at hinv'
        by_cases hv64 : v < 2 ^ 64
        · rw [if_pos hv64]
          by_cases hneg : c = '-'
          · simp only [hneg, if_true] at hinv'
            simp only [hneg, decide_True, not_true_eq_false, false_and, if_false, true_and]
            rw [if_pos (by omega)]
            exact ⟨_, rfl⟩
          · simp only [hneg, if_false] at hinv'
            simp only [hneg, decide_False, not_false_eq_true, true_and, Bool.false_eq_true]
            rw [if_pos (by omega)]
            exact ⟨_, rfl⟩
        · rw [if_neg hv64]
          exact ⟨_, rfl⟩
    · rw [if_neg hds]
      obtain ⟨err, herr⟩ := ParseUint_not_digits hds
      rw [herr]
      simp

theorem Atoi_of_valid {s : String} (h : ValidIntString s) :
    ∃ n, decimalInteger s = some n ∧ IsInt n ∧ Atoi s = Except.ok n := by
  obtain ⟨n, hn, hi⟩ := h
  exact ⟨n, hn, hi, (Atoi_spec s).1 n hn hi⟩

theorem empty_not_valid : ¬ ValidIntString "" := by
  rintro ⟨n, hn, _⟩
  simp [decimalInteger] at hn

/-- C8: `SetSize("")` returns no error and sets the size to 10; for a
non-empty string that is a decimal integer an `int` can hold, `SetSize` returns
no error and sets the size to that integer, zero and negative values included;
the other fields of the query are unchanged. -/
theorem SetSize_spec (q : PaginationQuery) (s : String) (n : Int) (hs : s ≠ "")
    (hd : decimalInteger s = some n) (hi : IsInt n) :
    q.SetSize "" = ({ q with Size := 10 }, none) ∧
      q.SetSize s = ({ q with Size := n }, none) ∧
      (q.SetSize s).1.Page = q.Page ∧ (q.SetSize s).1.OrderBy = q.OrderBy := by
  have h1 : q.SetSize s = ({ q with Size := n }, none) := by
    unfold PaginationQuery.SetSize
    rw [if_neg hs, (Atoi_spec s).1 n hd hi]
  refine ⟨by simp [PaginationQuery.SetSize, defaultSize], h1, ?_, ?_⟩ <;> rw [h1]

/-- C8 at the strings `25`, `0` and `-3`. -/
theorem SetSize_spec_witness :
    (("25" : String) ≠ "" ∧ decimalInteger "25" = some 25 ∧ IsInt 25) ∧
      PaginationQuery.SetSize { Size := 7, Page := 2, OrderBy := "id ASC", OrderDir := "" } "25" =
        ({ Size := 25, Page := 2, OrderBy := "id ASC", OrderDir := "" }, none) ∧
      PaginationQuery.SetSize { Size := 7, Page := 2, OrderBy := "id ASC", OrderDir := "" } "0" =
        ({ Size := 0, Page := 2, OrderBy := "id ASC", OrderDir := "" }, none) ∧
      PaginationQuery.SetSize { Size := 7, Page := 2, OrderBy := "id ASC", OrderDir := "" } "-3" =
        ({ Size := -3, Page := 2, OrderBy := "id ASC", OrderDir := "" }, none) :=
  ⟨⟨by decide, by decide, by decide⟩,
    (SetSize_spec _ "25" 25 (by decide) (by decide) (by decide)).2.1,
    (SetSize_spec _ "0" 0 (by decide) (by decide) (by decide)).2.1,
    (SetSize_spec _ "-3" (-3) (by decide) (by decide) (by decide)).2.1⟩

/-- C9: `SetSize` and `SetPage` each return an error exactly when the string
is non-empty and is not a valid integer string. -/
theorem SetSize_SetPage_error_iff (q : PaginationQuery) (s : String) :
    ((q.SetSize s).2 ≠ none ↔ s ≠ "" ∧ ¬ ValidIntString s) ∧
      ((q.SetPage s).2 ≠ none ↔ s ≠ "" ∧ ¬ ValidIntString s) := by
  unfold PaginationQuery.SetSize PaginationQuery.SetPage
  by_cases hs : s = ""
  · simp [hs]
  · simp only [if_neg hs, ne_eq, hs, not_false_eq_true, true_and]
    by_cases hv : ValidIntString s
    · obtain ⟨n, _, _, hok⟩ := Atoi_of_valid hv
      simp [hok, hv]
    · obtain ⟨err, herr⟩ := (Atoi_spec s).2 hv
      simp [herr, hv]

/-- C10: `SetPage("")` returns no error, leaves the page as it was and sets
the size to 0, whatever it was before. -/
theorem SetPage_empty (q : PaginationQuery) :
    (q.SetPage "").2 = none ∧ (q.SetPage "").1.Page = q.Page ∧ (q.SetPage "").1.Size = 0 ∧
      q.SetPage "" = ({ q with Size := 0 }, none) := by
  simp [PaginationQuery.SetPage]

/-! ## The setters and the extraction entry point -/

theorem SetOrderBy_eq (q : PaginationQuery) (a b : String) :
    q.SetOrderBy a b =
      { q with
        OrderBy := (if a = "" then "id" else a) ++ " " ++
          (if b = "" ∨ EqualsIgnoringCase b "asc" then "ASC" else "DESC") } := by
  unfold PaginationQuery.SetOrderBy sprintfTwo
  simp only [EqualFold_asc_iff]
  by_cases ha : a = "" <;> by_cases hb : b = "" ∨ EqualsIgnoringCase b "asc" <;>
    simp only [ha, hb, if_true, if_false]

theorem SetPage_of_ok (q : PaginationQuery) {s : String} {n : Int} (hs : s ≠ "")
    (h : Atoi s = Except.ok n) : q.SetPage s = ({ q with Page := n }, none) := by
  unfold PaginationQuery.SetPage
  rw [if_neg hs, h]

theorem SetPage_of_error (q : PaginationQuery) {s : String} {err : NumError} (hs : s ≠ "")
    (h : Atoi s = Except.error err) : q.SetPage s = (q, some err) := by
  unfold PaginationQuery.SetPage
  rw [if_neg hs, h]

theorem SetSize_of_ok (q : PaginationQuery) {s : String} {n : Int} (hs : s ≠ "")
    (h : Atoi s = Except.ok n) : q.SetSize s = ({ q with Size := n }, none) := by
  unfold PaginationQuery.SetSize
  rw [if_neg hs, h]

theorem SetSize_of_error (q : PaginationQuery) {s : String} {err : NumError} (hs : s ≠ "")
    (h : Atoi s = Except.error err) : q.SetSize s = (q, some err) := by
  unfold PaginationQuery.SetSize
  rw [if_neg hs, h]

theorem SetPage_of_empty (q : PaginationQuery) : q.SetPage "" = ({ q with Size := 0 }, none) := by
  simp [PaginationQuery.SetPage]

theorem SetSize_of_empty (q : PaginationQuery) : q.SetSize "" = ({ q with Size := 10 }, none) := by
  simp [PaginationQuery.SetSize, defaultSize]

/-- The error of a setter, when there is one, is the error of `Atoi`, and the
query is the one it was given. -/
theorem SetSize_error_cases (q : PaginationQuery) (s : String) (err : NumError)
    (h : (q.SetSize s).2 = some err) :
    s ≠ "" ∧ Atoi s = Except.error err ∧ q.SetSize s = (q, some err) := by
  by_cases hs : s = ""
  · subst hs; rw [SetSize_of_empty] at h; exact Option.noConfusion h
  · cases ha : Atoi s with
    | error e =>
        rw [SetSize_of_error q hs ha] at h ⊢
        simp only [Option.some.injEq] at h
        subst h
        exact ⟨hs, rfl, rfl⟩
    | ok n => rw [SetSize_of_ok q hs ha] at h; exact Option.noConfusion h

theorem SetPage_error_cases (q : PaginationQuery) (s : String) (err : NumError)
    (h : (q.SetPage s).2 = some err) :
    s ≠ "" ∧ Atoi s = Except.error err ∧ q.SetPage s = (q, some err) := by
  by_cases hs : s = ""
  · subst hs; rw [SetPage_of_empty] at h; exact Option.noConfusion h
  · cases ha : Atoi s with
    | error e =>
        rw [SetPage_of_error q hs ha] at h ⊢
        simp only [Option.some.injEq] at h
        subst h
        exact ⟨hs, rfl, rfl⟩
    | ok n => rw [SetPage_of_ok q hs ha] at h; exact Option.noConfusion h

/-- C11: for a non-empty string that is a valid integer, `SetPage` returns no
error, sets the page to the integer the string denotes and leaves the size,
the order clause and the order direction as they were. -/
theorem SetPage_spec (q : PaginationQuery) (s : String) (n : Int) (hs : s ≠ "")
    (hd : decimalInteger s = some n) (hi : IsInt n) :
    q.SetPage s = ({ q with Page := n }, none) ∧
      (q.SetPage s).2 = none ∧ (q.SetPage s).1.Page = n ∧ (q.SetPage s).1.Size = q.Size ∧
      (q.SetPage s).1.OrderBy = q.OrderBy ∧ (q.SetPage s).1.OrderDir = q.OrderDir := by
  rw [SetPage_of_ok q hs ((Atoi_spec s).1 n hd hi)]
  exact ⟨rfl, rfl, rfl, rfl, rfl, rfl⟩

/-- C11 at the strings `4` and `-2`. -/
theorem SetPage_spec_witness :
    (("4" : String) ≠ "" ∧ decimalInteger "4" = some 4 ∧ IsInt 4) ∧
      PaginationQuery.SetPage { Size := 7, Page := 2, OrderBy := "id ASC", OrderDir := "x" } "4" =
        ({ Size := 7, Page := 4, OrderBy := "id ASC", OrderDir := "x" }, none) ∧
      PaginationQuery.SetPage { Size := 7, Page := 2, OrderBy := "id ASC", OrderDir := "x" } "-2" =
        ({ Size := 7, Page := -2, OrderBy := "id ASC", OrderDir := "x" }, none) :=
  ⟨⟨by decide, by decide, by decide⟩,
    (SetPage_spec _ "4" 4 (by decide) (by decide) (by decide)).1,
    (SetPage_spec _ "-2" (-2) (by decide) (by decide) (by decide)).1⟩

/-- C18: when `SetSize`, respectively `SetPage`, returns an error, the query
is exactly as it was before the call. -/
theorem setters_atomic_on_error (q : PaginationQuery) (s : String) :
    ((q.SetSize s).2 ≠ none → (q.SetSize s).1 = q) ∧
      ((q.SetPage s).2 ≠ none → (q.SetPage s).1 = q) := by
  constructor
  · intro h
    obtain ⟨err, herr⟩ := Option.ne_none_iff_exists'.mp h
    rw [(SetSize_error_cases q s err herr).2.2]
  · intro h
    obtain ⟨err, herr⟩ := Option.ne_none_iff_exists'.mp h
    rw [(SetPage_error_cases q s err herr).2.2]

/-- C18 at the string `12a`, which both setters reject. -/
theorem setters_atomic_on_error_witness :
    (PaginationQuery.SetSize { Size := 7, Page := 2, OrderBy := "id ASC", OrderDir := "x" }
        "12a").2 ≠ none ∧
      (PaginationQuery.SetSize { Size := 7, Page := 2, OrderBy := "id ASC", OrderDir := "x" }
        "12a").1 = { Size := 7, Page := 2, OrderBy := "id ASC", OrderDir := "x" } ∧
      (PaginationQuery.SetPage { Size := 7, Page := 2, OrderBy := "id ASC", OrderDir := "x" }
        "12a").2 ≠ none ∧
      (PaginationQuery.SetPage { Size := 7, Page := 2, OrderBy := "id ASC", OrderDir := "x" }
        "12a").1 = { Size := 7, Page := 2, OrderBy := "id ASC", OrderDir := "x" } :=
  ⟨by decide, (setters_atomic_on_error _ "12a").1 (by decide), by decide,
    (setters_atomic_on_error _ "12a").2 (by decide)⟩

/-- The entry point when both setters succeed: the page read (0 when the
parameter is empty), the size read (10 when the parameter is empty), the order
clause of `SetOrderBy`, and an empty order direction. -/
theorem GetPaginationFromRequest_ok (r : Request) (pg sz : Int)
    (hp : (r.Get "page" = "" ∧ pg = 0) ∨ (r.Get "page" ≠ "" ∧ Atoi (r.Get "page") = Except.ok pg))
    (hs : (r.Get "size" = "" ∧ sz = 10) ∨
      (r.Get "size" ≠ "" ∧ Atoi (r.Get "size") = Except.ok sz)) :
    GetPaginationFromRequest r = Except.ok
      { Size := sz
        Page := pg
        OrderBy := (if r.Get "orderBy" = "" then "id" else r.Get "orderBy") ++ " " ++
          (if r.Get "orderDir" = "" ∨ EqualsIgnoringCase (r.Get "orderDir") "asc" then "ASC"
            else "DESC")
        OrderDir := "" } := by
  unfold GetPaginationFromRequest
  simp only
  rcases hp with ⟨hp1, rfl⟩ | ⟨hp1, hp2⟩
  · rcases hs with ⟨hs1, rfl⟩ | ⟨hs1, hs2⟩
    · simp only [hp1, hs1, SetPage_of_empty, SetSize_of_empty, SetOrderBy_eq]
    · simp only [hp1, SetPage_of_empty, SetSize_of_ok _ hs1 hs2, SetOrderBy_eq]
  · rcases hs with ⟨hs1, rfl⟩ | ⟨hs1, hs2⟩
    · simp only [hs1, SetPage_of_ok _ hp1 hp2, SetSize_of_empty, SetOrderBy_eq]
    · simp only [SetPage_of_ok _ hp1 hp2, SetSize_of_ok _ hs1 hs2, SetOrderBy_eq]

/-- The entry point when `SetPage` fails: its error, whatever the size
parameter. -/
theorem GetPaginationFromRequest_page_error (r : Request) (err : NumError)
    (hp : r.Get "page" ≠ "") (he : Atoi (r.Get "page") = Except.error err) :
    GetPaginationFromRequest r = Except.error err := by
  unfold GetPaginationFromRequest
  simp only
  simp only [SetPage_of_error _ hp he]

/-- The entry point when `SetPage` succeeds and `SetSize` fails. -/
theorem GetPaginationFromRequest_size_error (r : Request) (err : NumError)
    (hp : r.Get "page" = "" ∨ ∃ pg, Atoi (r.Get "page") = Except.ok pg)
    (hs : r.Get "size" ≠ "") (he : Atoi (r.Get "size") = Except.error err) :
    GetPaginationFromRequest r = Except.error err := by
  unfold GetPaginationFromRequest
  simp only
  by_cases hp1 : r.Get "page" = ""
  · simp only [hp1, SetPage_of_empty, SetSize_of_error _ hs he]
  · rcases hp with hp | ⟨pg, hpg⟩
    · exact absurd hp hp1
    · simp only [SetPage_of_ok _ hp1 hpg, SetSize_of_error _ hs he]

theorem Request.Get_eq_empty_iff (r : Request) (key : String) :
    r.Get key = "" ↔ r.Query key = [] ∨ (r.Query key).head? = some "" := by
  unfold Request.Get
  cases r.Query key with
  | nil => simp
  | cons v vs => simp

/-- C12: when the size parameter is absent or empty and the page parameter
is absent, empty or a valid integer, `GetPaginationFromRequest` succeeds and
the query has size 10; when the page parameter is absent or empty as well, the
query has page 0, size 10 and offset 0. -/
theorem GetPaginationFromRequest_default_size (r : Request)
    (hsize : r.Query "size" = [] ∨ (r.Query "size").head? = some "")
    (hpage : r.Query "page" = [] ∨ (r.Query "page").head? = some "" ∨
      ValidIntString (r.Get "page")) :
    (∃ q, GetPaginationFromRequest r = Except.ok q ∧ q.Size = 10) ∧
      (r.Query "page" = [] ∨ (r.Query "page").head? = some "" →
        ∃ q, GetPaginationFromRequest r = Except.ok q ∧ q.Page = 0 ∧ q.Size = 10 ∧
          q.GetOffset = 0) := by
  have hs : r.Get "size" = "" := (Request.Get_eq_empty_iff r "size").mpr hsize
  constructor
  · by_cases hp : r.Get "page" = ""
    · exact ⟨_, GetPaginationFromRequest_ok r 0 10 (Or.inl ⟨hp, rfl⟩) (Or.inl ⟨hs, rfl⟩), rfl⟩
    · have hv : ValidIntString (r.Get "page") := by
        rcases hpage with h | h | h
        · exact absurd ((Request.Get_eq_empty_iff r "page").mpr (Or.inl h)) hp
        · exact absurd ((Request.Get_eq_empty_iff r "page").mpr (Or.inr h)) hp
        · exact h
      obtain ⟨n, _, _, hok⟩ := Atoi_of_valid hv
      exact ⟨_, GetPaginationFromRequest_ok r n 10 (Or.inr ⟨hp, hok⟩) (Or.inl ⟨hs, rfl⟩), rfl⟩
  · intro h
    have hp : r.Get "page" = "" := (Request.Get_eq_empty_iff r "page").mpr h
    exact ⟨_, GetPaginationFromRequest_ok r 0 10 (Or.inl ⟨hp, rfl⟩) (Or.inl ⟨hs, rfl⟩), rfl, rfl,
      rfl⟩

/-- C12 at the request with no parameter at all. -/
theorem GetPaginationFromRequest_default_size_witness :
    (Request.Query { Query := fun _ => [] } "size" = [] ∧
        Request.Query { Query := fun _ => [] } "page" = []) ∧
      ∃ q, GetPaginationFromRequest { Query := fun _ => [] } = Except.ok q ∧ q.Page = 0 ∧
        q.Size = 10 ∧ q.GetOffset = 0 :=
  ⟨⟨rfl, rfl⟩,
    (GetPaginationFromRequest_default_size { Query := fun _ => [] } (Or.inl rfl)
      (Or.inl rfl)).2 (Or.inl rfl)⟩

/-- C13: when the page and size parameters are valid integer strings,
`GetPaginationFromRequest` returns no error and a query whose page and size
are the integers they denote, whose order clause is the string `SetOrderBy`
produces from the orderBy and orderDir parameters, and whose order direction
is empty. -/
theorem GetPaginationFromRequest_valid (r : Request) (p s : Int)
    (hp : decimalInteger (r.Get "page") = some p) (hpi : IsInt p)
    (hs : decimalInteger (r.Get "size") = some s) (hsi : IsInt s) :
    GetPaginationFromRequest r = Except.ok
        { Size := s
          Page := p
          OrderBy := (if r.Get "orderBy" = "" then "id" else r.Get "orderBy") ++ " " ++
            (if r.Get "orderDir" = "" ∨ EqualsIgnoringCase (r.Get "orderDir") "asc" then "ASC"
              else "DESC")
          OrderDir := "" } ∧
      ∀ q : PaginationQuery,
        (q.SetOrderBy (r.Get "orderBy") (r.Get "orderDir")).GetOrderBy =
          (if r.Get "orderBy" = "" then "id" else r.Get "orderBy") ++ " " ++
            (if r.Get "orderDir" = "" ∨ EqualsIgnoringCase (r.Get "orderDir") "asc" then "ASC"
              else "DESC") := by
  have hpne : r.Get "page" ≠ "" := by
    intro h; rw [h] at hp; simp [decimalInteger] at hp
  have hsne : r.Get "size" ≠ "" := by
    intro h; rw [h] at hs; simp [decimalInteger] at hs
  refine ⟨GetPaginationFromRequest_ok r p s (Or.inr ⟨hpne, (Atoi_spec _).1 p hp hpi⟩)
    (Or.inr ⟨hsne, (Atoi_spec _).1 s hs hsi⟩), fun q => ?_⟩
  rw [SetOrderBy_eq]
  rfl

/-- C13 at the request `page=1&size=10&orderBy=first_name&orderDir=desc`. -/
theorem GetPaginationFromRequest_valid_witness :
    (decimalInteger (testRequest.Get "page") = some 1 ∧ IsInt 1 ∧
        decimalInteger (testRequest.Get "size") = some 10 ∧ IsInt 10) ∧
      GetPaginationFromRequest testRequest =
        Except.ok { Size := 10, Page := 1, OrderBy := "first_name DESC", OrderDir := "" } :=
  ⟨⟨by decide, by decide, by decide, by decide⟩,
    (GetPaginationFromRequest_valid testRequest 1 10 (by decide) (by decide) (by decide)
      (by decide)).1.trans (congrArg Except.ok (by decide))⟩

/-- C14: `GetPaginationFromRequest` returns an error exactly when the page
parameter or the size parameter is non-empty and not a valid integer string;
then no query is returned; the error is the first one met: the error of the
page parameter whatever the size parameter is, and the error of the size
parameter only when the page parameter is accepted. -/
theorem GetPaginationFromRequest_error_iff (r : Request) :
    ((∃ err, GetPaginationFromRequest r = Except.error err) ↔
        (r.Get "page" ≠ "" ∧ ¬ ValidIntString (r.Get "page")) ∨
          (r.Get "size" ≠ "" ∧ ¬ ValidIntString (r.Get "size"))) ∧
      ((∃ err, GetPaginationFromRequest r = Except.error err) →
        ¬ ∃ q, GetPaginationFromRequest r = Except.ok q) ∧
      (∀ err, r.Get "page" ≠ "" → Atoi (r.Get "page") = Except.error err →
        GetPaginationFromRequest r = Except.error err) ∧
      (∀ err, r.Get "page" = "" ∨ ValidIntString (r.Get "page") → r.Get "size" ≠ "" →
        Atoi (r.Get "size") = Except.error err →
        GetPaginationFromRequest r = Except.error err) := by
  have hpage : ∀ err, r.Get "page" ≠ "" → Atoi (r.Get "page") = Except.error err →
      GetPaginationFromRequest r = Except.error err :=
    fun err h1 h2 => GetPaginationFromRequest_page_error r err h1 h2
  have hsize : ∀ err, r.Get "page" = "" ∨ ValidIntString (r.Get "page") → r.Get "size" ≠ "" →
      Atoi (r.Get "size") = Except.error err →
      GetPaginationFromRequest r = Except.error err := by
    intro err h1 h2 h3
    refine GetPaginationFromRequest_size_error r err ?_ h2 h3
    rcases h1 with h1 | h1
    · exact Or.inl h1
    · obtain ⟨n, _, _, hok⟩ := Atoi_of_valid h1
      exact Or.inr ⟨n, hok⟩
  refine ⟨⟨?_, ?_⟩, ?_, hpage, hsize⟩
  · rintro ⟨err, herr⟩
    by_contra hcon
    rw [not_or, not_and_or, not_and_or, not_not, not_not, not_not, not_not] at hcon
    obtain ⟨hp, hs⟩ := hcon
    have hp' : ∃ pg, (r.Get "page" = "" ∧ pg = 0) ∨
        (r.Get "page" ≠ "" ∧ Atoi (r.Get "page") = Except.ok pg) := by
      by_cases h : r.Get "page" = ""
      · exact ⟨0, Or.inl ⟨h, rfl⟩⟩
      · obtain ⟨n, _, _, hok⟩ := Atoi_of_valid (hp.resolve_left h)
        exact ⟨n, Or.inr ⟨h, hok⟩⟩
    have hs' : ∃ sz, (r.Get "size" = "" ∧ sz = 10) ∨
        (r.Get "size" ≠ "" ∧ Atoi (r.Get "size") = Except.ok sz) := by
      by_cases h : r.Get "size" = ""
      · exact ⟨10, Or.inl ⟨h, rfl⟩⟩
      · obtain ⟨n, _, _, hok⟩ := Atoi_of_valid (hs.resolve_left h)
        exact ⟨n, Or.inr ⟨h, hok⟩⟩
    obtain ⟨pg, hpg⟩ := hp'
    obtain ⟨sz, hsz⟩ := hs'
    rw [GetPaginationFromRequest_ok r pg sz hpg hsz] at herr
    exact Except.noConfusion herr
  · rintro (⟨hp1, hp2⟩ | ⟨hs1, hs2⟩)
    · obtain ⟨err, herr⟩ := (Atoi_spec _).2 hp2
      exact ⟨err, hpage err hp1 herr⟩
    · by_cases hp : r.Get "page" = "" ∨ ValidIntString (r.Get "page")
      · obtain ⟨err, herr⟩ := (Atoi_spec _).2 hs2
        exact ⟨err, hsize err hp hs1 herr⟩
      · rw [not_or] at hp
        obtain ⟨err, herr⟩ := (Atoi_spec _).2 hp.2
        exact ⟨err, hpage err hp.1 herr⟩
  · rintro ⟨err, herr⟩ ⟨q, hq⟩
    rw [herr] at hq
    exact Except.noConfusion hq

/-- C14 at a request whose page parameter is out of range and whose size
parameter is not a number: the error is the range error of the page. -/
theorem GetPaginationFromRequest_error_iff_witness :
    GetPaginationFromRequest
        { Query := fun key =>
            if key = "page" then ["99999999999999999999"]
            else if key = "size" then ["x"] else [] } =
      Except.error NumError.ErrRange :=
  (GetPaginationFromRequest_error_iff
      { Query := fun key =>
          if key = "page" then ["99999999999999999999"]
          else if key = "size" then ["x"] else [] }).2.2.1
    NumError.ErrRange (by decide) rfl

/-! ## The response builder, continued -/

/-- C15: for a query whose size is not 0, `PaginatedResponse` returns a
response with the count as total count, `GetTotalPages(count, size)` as total
pages, the page and the size of the query, `GetHasMore(page, count, size)` as
has-more, and the given list, unchanged, as values. -/
theorem PaginatedResponse_fields {α : Type} (impl : Float64 → Int) (count : Int)
    (pq : PaginationQuery) (list : Slice α) (h : pq.Size ≠ 0) :
    ∃ r, PaginatedResponse impl count pq list = some r ∧ r.TotalCount = count ∧
      r.TotalPages = GetTotalPages impl count pq.Size ∧ r.Page = pq.Page ∧ r.Size = pq.Size ∧
      GetHasMore pq.Page count pq.Size = some r.HasMore ∧ r.Values = list :=
  ⟨_, PaginatedResponse_of_ne_zero impl count pq list h, rfl, rfl, rfl, rfl,
    GetHasMore_of_ne_zero _ h, rfl⟩

/-- C15 at 150 rows, page 1 of size 10, for a list of one item. -/
theorem PaginatedResponse_fields_witness :
    (10 : Int) ≠ 0 ∧
      PaginatedResponse amd64 150 { Size := 10, Page := 1, OrderBy := "", OrderDir := "" }
          (Slice.elems ["John"]) =
        some
          { TotalCount := 150
            TotalPages := 15
            Page := 1
            Size := 10
            HasMore := true
            Values := Slice.elems ["John"] } := by
  refine ⟨by decide, ?_⟩
  obtain ⟨r, hr, h1, h2, h3, h4, h5, h6⟩ :=
    PaginatedResponse_fields amd64 150
      { Size := 10, Page := 1, OrderBy := "", OrderDir := "" } (Slice.elems ["John"])
      (by decide)
  rw [hr]
  have ht : GetTotalPages amd64 150 10 = 15 := by
    rw [GetTotalPages_eq_ceil amd64 (by norm_num) (by norm_num) (by norm_num) (by decide),
      Int.ceil_eq_iff]
    norm_num
  have hm : GetHasMore 1 150 10 = some true := by decide
  simp only [ht] at h2
  simp only [hm, Option.some.injEq] at h5
  cases r
  simp only at h1 h2 h3 h4 h5 h6
  subst h1 h2 h3 h4 h5 h6
  rfl

/-- C20: for a query whose size is not 0 and whose page is not negative, the
response of `DefaultPaginationResponse` has has-more false. -/
theorem DefaultPaginationResponse_hasMore {α : Type} (impl : Float64 → Int)
    (pq : PaginationQuery) (hs : pq.Size ≠ 0) (hp : 0 ≤ pq.Page) :
    ∃ r : PaginationResponse α, DefaultPaginationResponse impl pq = some r ∧
      r.HasMore = false := by
  have h0 : wrapInt (Int.tdiv 0 pq.Size) = 0 := by
    rw [Int.zero_tdiv]; rfl
  have hm : GetHasMore pq.Page 0 pq.Size = some false := by
    rw [GetHasMore_of_ne_zero _ hs, h0]
    simp only [Option.some.injEq, decide_eq_false_iff_not, not_lt]
    exact hp
  unfold DefaultPaginationResponse
  simp only [PaginationQuery.GetSize, PaginationQuery.GetPage, hm]
  exact ⟨_, rfl, rfl⟩

/-- C20 at page 1 of size 10. -/
theorem DefaultPaginationResponse_hasMore_witness :
    ((10 : Int) ≠ 0 ∧ (0 : Int) ≤ 1) ∧
      ∃ r : PaginationResponse Nat,
        DefaultPaginationResponse amd64 { Size := 10, Page := 1, OrderBy := "", OrderDir := "" } =
          some r ∧ r.HasMore = false :=
  ⟨⟨by decide, by decide⟩,
    DefaultPaginationResponse_hasMore amd64
      { Size := 10, Page := 1, OrderBy := "", OrderDir := "" } (by decide) (by decide)⟩

/-- C16: for a query whose size is greater than 0, `DefaultPaginationResponse`
returns a response with total count 0, total pages 0, the page and the size of
the query, and an allocated empty sequence as values (not the nil slice). -/
theorem DefaultPaginationResponse_fields {α : Type} (impl : Float64 → Int)
    (pq : PaginationQuery) (hs : 0 < pq.Size) (hmax : pq.Size ≤ maxInt) :
    ∃ r : PaginationResponse α, DefaultPaginationResponse impl pq = some r ∧
      r.TotalCount = 0 ∧ r.TotalPages = 0 ∧ r.Page = pq.Page ∧ r.Size = pq.Size ∧
      r.Values = Slice.elems [] ∧ r.Values ≠ Slice.nil := by
  have ht : GetTotalPages impl 0 pq.Size = 0 := by
    rw [GetTotalPages_eq_ceil impl le_rfl (by norm_num) hs hmax]
    simp
  have hm : GetHasMore pq.Page 0 pq.Size =
      some (decide (pq.Page < wrapInt (Int.tdiv 0 pq.Size))) :=
    GetHasMore_of_ne_zero _ hs.ne'
  unfold DefaultPaginationResponse
  simp only [PaginationQuery.GetSize, PaginationQuery.GetPage, hm, ht]
  exact ⟨_, rfl, rfl, rfl, rfl, rfl, rfl, fun h => Slice.noConfusion h⟩

/-- C16 at page 1 of size 10, the query of `TestDefaultPaginationResponse`. -/
theorem DefaultPaginationResponse_fields_witness :
    ((0 : Int) < 10 ∧ (10 : Int) ≤ maxInt) ∧
      ∃ r : PaginationResponse Nat,
        DefaultPaginationResponse amd64
            { Size := 10, Page := 1, OrderBy := "first_name", OrderDir := "desc" } = some r ∧
          r.TotalCount = 0 ∧ r.TotalPages = 0 ∧ r.Page = 1 ∧ r.Size = 10 ∧
          r.Values = Slice.elems [] ∧ r.Values ≠ Slice.nil :=
  ⟨⟨by decide, by decide⟩,
    DefaultPaginationResponse_fields amd64
      { Size := 10, Page := 1, OrderBy := "first_name", OrderDir := "desc" } (by decide)
      (by decide)⟩

/-! ## The offset, continued -/

theorem GetOffset_eq_of_fit (q : PaginationQuery) (h : q.Page ≠ 0)
    (hfit : IsInt ((q.Page - 1) * q.Size)) : q.GetOffset = (q.Page - 1) * q.Size := by
  simp only [PaginationQuery.GetOffset, if_neg h, intMul, intSub]
  rw [wrapInt_mul_wrapInt, wrapInt_of_isInt hfit]

theorem isInt_pred_mul {p size : Int} (hp : 1 ≤ p) (hfit : IsInt (p * size)) :
    IsInt ((p - 1) * size) := by
  unfold IsInt minInt maxInt at *
  rcases le_or_lt 0 size with hs | hs
  · constructor <;> nlinarith
  · constructor <;> nlinarith

/-- C19: without overflow (the product `p * size` fits an `int`), for every
size and every page `p ≥ 1` the offset of page `p + 1` is the offset of page `p`
plus the limit, and the offset of page 1 is 0; and the offset is not negative
when the page and the size are not negative and the product
`(page - 1) * size` fits an `int`. -/
theorem GetOffset_tiles (size p : Int) (orderBy orderDir : String) (hp : 1 ≤ p)
    (hfit : IsInt (p * size)) :
    PaginationQuery.GetOffset
        { Size := size, Page := p + 1, OrderBy := orderBy, OrderDir := orderDir } =
      PaginationQuery.GetOffset
          { Size := size, Page := p, OrderBy := orderBy, OrderDir := orderDir } +
        PaginationQuery.GetLimit
          { Size := size, Page := p, OrderBy := orderBy, OrderDir := orderDir } ∧
      PaginationQuery.GetOffset
        { Size := size, Page := 1, OrderBy := orderBy, OrderDir := orderDir } = 0 ∧
      ∀ q : PaginationQuery, 0 ≤ q.Page → 0 ≤ q.Size → IsInt ((q.Page - 1) * q.Size) →
        0 ≤ q.GetOffset := by
  refine ⟨?_, ?_, ?_⟩
  · have h1 : PaginationQuery.GetOffset
        { Size := size, Page := p + 1, OrderBy := orderBy, OrderDir := orderDir } = p * size := by
      rw [GetOffset_eq_of_fit _ (by simp only; omega)
        (by simp only [add_sub_cancel_right]; exact hfit)]
      simp only [add_sub_cancel_right]
    have h2 : PaginationQuery.GetOffset
        { Size := size, Page := p, OrderBy := orderBy, OrderDir := orderDir } =
          (p - 1) * size := by
      rw [GetOffset_eq_of_fit _ (by simp only; omega) (isInt_pred_mul hp hfit)]
    rw [h1, h2]
    simp only [PaginationQuery.GetLimit]
    ring
  · simp [PaginationQuery.GetOffset, intMul, intSub, wrapInt]
  · intro q hpage hsize hq
    by_cases h0 : q.Page = 0
    · simp [PaginationQuery.GetOffset, h0]
    · rw [GetOffset_eq_of_fit q h0 hq]
      have : 0 ≤ q.Page - 1 := by omega
      exact mul_nonneg this hsize

/-- C19 at pages 3 and 4 of size 10: offsets 20 and 30. -/
theorem GetOffset_tiles_witness :
    ((1 : Int) ≤ 3 ∧ IsInt (3 * 10)) ∧
      PaginationQuery.GetOffset { Size := 10, Page := 3 + 1, OrderBy := "", OrderDir := "" } =
        PaginationQuery.GetOffset { Size := 10, Page := 3, OrderBy := "", OrderDir := "" } +
          PaginationQuery.GetLimit { Size := 10, Page := 3, OrderBy := "", OrderDir := "" } :=
  ⟨⟨by decide, by decide⟩, (GetOffset_tiles 10 3 "" "" (by decide) (by decide)).1⟩


/-! ## Rounding of negative quotients -/

theorem roundNearestEven_neg (y : ℚ) : roundNearestEven (-y) = -roundNearestEven y := by
  by_cases hint : y = (⌊y⌋ : ℚ)
  · rw [hint, ← Int.cast_neg, roundNearestEven_intCast, roundNearestEven_intCast]
  · have hlt : (⌊y⌋ : ℚ) < y := lt_of_le_of_ne (Int.floor_le y) (Ne.symm hint)
    have hlt2 : y < (⌊y⌋ : ℚ) + 1 := Int.lt_floor_add_one y
    have hf : ⌊-y⌋ = -⌊y⌋ - 1 := by
      rw [Int.floor_eq_iff]
      push_cast
      constructor <;> linarith
    unfold roundNearestEven
    simp only [hf]
    push_cast
    by_cases h1 : y - (⌊y⌋ : ℚ) < 1 / 2
    · have h2 : ¬ (-y - (-(⌊y⌋ : ℚ) - 1) < 1 / 2) := by linarith
      have h3 : 1 / 2 < -y - (-(⌊y⌋ : ℚ) - 1) := by linarith
      rw [if_pos h1, if_neg h2, if_pos h3]
      ring
    · by_cases h2 : 1 / 2 < y - (⌊y⌋ : ℚ)
      · have h3 : -y - (-(⌊y⌋ : ℚ) - 1) < 1 / 2 := by linarith
        rw [if_neg h1, if_pos h2, if_pos h3]
        ring
      · have h3 : ¬ (-y - (-(⌊y⌋ : ℚ) - 1) < 1 / 2) := by linarith
        have h4 : ¬ (1 / 2 < -y - (-(⌊y⌋ : ℚ) - 1)) := by linarith
        rw [if_neg h1, if_neg h2, if_neg h3, if_neg h4]
        by_cases he : ⌊y⌋ % 2 = 0
        · have ho : ¬ ((-⌊y⌋ - 1) % 2 = 0) := by omega
          rw [if_pos he, if_neg ho]
          ring
        · have ho : (-⌊y⌋ - 1) % 2 = 0 := by omega
          rw [if_neg he, if_pos ho]
          ring

theorem roundToGrid_neg (x : ℚ) : roundToGrid (-x) = -roundToGrid x := by
  unfold roundToGrid
  by_cases h : x = 0
  · simp [h]
  · have hu : ulpExp (-x) = ulpExp x := by unfold ulpExp; rw [abs_neg]
    rw [if_neg (neg_ne_zero.mpr h), if_neg h, hu, neg_div, roundNearestEven_neg]
    push_cast
    ring

theorem roundNearestEven_le_pred {y : ℚ} {n : ℤ} (h : y < (n : ℚ) - 1 / 2) :
    roundNearestEven y ≤ n - 1 := by
  have h1 : ((-n : ℤ) : ℚ) + 1 / 2 < -y := by push_cast; linarith
  have h2 := succ_le_roundNearestEven h1
  rw [roundNearestEven_neg] at h2
  omega

/-- Rounding a positive value keeps its floor, as long as the value is at most
`2 ^ 53` and stays below the next integer by at least `2 ^ (-53)` times
itself. -/
theorem roundToGrid_floor {x : ℚ} (hx : 0 < x) (hmin : (2 : ℚ) ^ (-1022 : ℤ) ≤ x)
    (h53 : x ≤ 2 ^ 53) (hgap : x ≤ ((⌊x⌋ : ℚ) + 1 - x) * 2 ^ 53) :
    (⌊x⌋ : ℚ) ≤ roundToGrid x ∧ roundToGrid x < (⌊x⌋ : ℚ) + 1 := by
  by_cases hint : x = (⌊x⌋ : ℚ)
  · have hfpos : 0 ≤ ⌊x⌋ := Int.floor_nonneg.mpr hx.le
    have habs : |⌊x⌋| ≤ 2 ^ 53 := by
      rw [abs_of_nonneg hfpos]
      have : ((⌊x⌋ : ℤ) : ℚ) ≤ 2 ^ 53 := by rw [← hint]; exact h53
      exact_mod_cast this
    have := roundToGrid_intCast habs
    rw [← hint] at this
    rw [this]
    constructor <;> linarith
  have hfx : (⌊x⌋ : ℚ) < x := lt_of_le_of_ne (Int.floor_le x) (Ne.symm hint)
  have hxf : x < (⌊x⌋ : ℚ) + 1 := Int.lt_floor_add_one x
  have hx53 : x < 2 ^ 53 := by
    rcases lt_or_eq_of_le h53 with h | h
    · exact h
    · exfalso
      apply hint
      rw [h]
      have : ⌊((2 : ℚ) ^ 53)⌋ = 2 ^ 53 := by
        have : ((2 : ℚ) ^ 53) = (((2 : ℤ) ^ 53 : ℤ) : ℚ) := by norm_num
        rw [this, Int.floor_intCast]
      rw [this]; norm_num
  have habs : |x| = x := abs_of_pos hx
  set k := ⌊x⌋ with hkdef
  set e := Int.log 2 x with he
  have h1 : (2 : ℚ) ^ e ≤ x := Int.zpow_log_le_self (by norm_num) hx
  have h2 : x < (2 : ℚ) ^ (e + 1) := Int.lt_zpow_succ_log_self (by norm_num) _
  have hemin : -1022 ≤ e :=
    (Int.zpow_le_iff_le_log (b := 2) (by norm_num) hx).mp (by exact_mod_cast hmin)
  have he52 : e < 53 := by
    have hlt' : x < ((2 : ℕ) : ℚ) ^ (53 : ℤ) := by
      rw [show (53 : ℤ) = ((53 : ℕ) : ℤ) by rfl, zpow_natCast]
      push_cast
      exact hx53
    exact (Int.lt_zpow_iff_log_lt (b := 2) (by norm_num) hx).mp hlt'
  have hU : (2 : ℚ) ^ (e - 52) = 1 / ((2 ^ (52 - e).toNat : ℕ) : ℚ) := by
    rw [← two_zpow_eq_natCast (by omega), one_div, ← zpow_neg]
    congr 1; omega
  set U : ℕ := 2 ^ (52 - e).toNat with hUdef
  have hUpos : (0 : ℚ) < (U : ℚ) := by
    have : 0 < U := by positivity
    exact_mod_cast this
  have hUe : (U : ℚ) * 2 ^ e = 2 ^ 52 := by
    rw [hUdef, ← two_zpow_eq_natCast (by omega), ← zpow_add₀ (by norm_num)]
    rw [show (52 - e + e : ℤ) = ((52 : ℕ) : ℤ) by push_cast; ring, zpow_natCast]
  rw [roundToGrid_eq hemin (by rw [habs]; exact h1) (by rw [habs]; exact h2), hU]
  have hdiv : x / (1 / (U : ℚ)) = x * U := by field_simp
  rw [hdiv]
  have hlo : k * U ≤ roundNearestEven (x * U) := by
    apply le_roundNearestEven
    push_cast
    exact mul_le_mul_of_nonneg_right hfx.le hUpos.le
  have hhi : roundNearestEven (x * U) ≤ (k + 1) * U - 1 ∨
      roundNearestEven (x * U) = 2 ^ 52 ∧ x * U = 2 ^ 52 := by
    rcases eq_or_lt_of_le h1 with heq | hlt
    · right
      have hxU : x * U = 2 ^ 52 := by rw [← heq, mul_comm]; exact hUe
      refine ⟨?_, hxU⟩
      have : x * U = (((2 : ℤ) ^ 52 : ℤ) : ℚ) := by rw [hxU]; norm_num
      rw [this, roundNearestEven_intCast]
    · left
      apply roundNearestEven_le_pred
      push_cast
      have h3 : (2 : ℚ) ^ e * U < (k + 1 - x) * 2 ^ 53 * U :=
        mul_lt_mul_of_pos_right (lt_of_lt_of_le hlt hgap) hUpos
      have h4 : (2 : ℚ) ^ e * U = 2 ^ 52 := by rw [mul_comm]; exact hUe
      rw [h4] at h3
      have h5 : (2 : ℚ) ^ 53 = 2 * 2 ^ 52 := by norm_num
      rw [h5] at h3
      have h6 : (0 : ℚ) < 2 ^ 52 := by positivity
      nlinarith
  have hloq : (k : ℚ) * U ≤ (roundNearestEven (x * U) : ℚ) := by exact_mod_cast hlo
  constructor
  · rw [mul_one_div, le_div_iff₀ hUpos]
    exact hloq
  · rw [mul_one_div, div_lt_iff₀ hUpos]
    rcases hhi with hhi | ⟨hr, hxU⟩
    · have hhiq : (roundNearestEven (x * U) : ℚ) ≤ ((k : ℚ) + 1) * U - 1 := by
        exact_mod_cast hhi
      linarith
    · rw [hr]
      have h7 : x * U < ((k : ℚ) + 1) * U := mul_lt_mul_of_pos_right hxf hUpos
      rw [hxU] at h7
      push_cast
      exact h7


theorem Float64.toInt_intCast (impl : Float64 → Int) {c : ℤ} (h : IsInt c) :
    Float64.toInt impl (Float64.finite (c : ℚ)) = c := by
  unfold Float64.toInt
  simp only [Int.floor_intCast, Int.ceil_intCast, ite_self]
  rw [if_pos (show minInt ≤ c ∧ c ≤ maxInt from h)]

/-- With a negative page size the page count is still the ceiling of the
exact quotient, as long as both operands are exact in `float64`. -/
theorem GetTotalPages_neg_size (impl : Float64 → Int) {t p : ℤ} (ht : |t| ≤ 2 ^ 53)
    (hp53 : -2 ^ 53 ≤ p) (hp : p < 0) : GetTotalPages impl t p = ⌈(t : ℚ) / p⌉ := by
  have hpabs : |p| ≤ 2 ^ 53 := by rw [abs_of_neg hp]; omega
  have hpq : (p : ℚ) < 0 := by exact_mod_cast hp
  have htb := abs_le.mp ht
  rcases le_or_lt t 0 with ht0 | ht0
  · -- both operands negative: the quotient of the opposites
    have hmax : -p ≤ maxInt := by unfold maxInt; omega
    have key := GetTotalPages_eq_ceil impl (t := -t) (p := -p) (by omega) (by omega) (by omega)
      hmax
    have hq : ((-t : ℤ) : ℚ) / ((-p : ℤ) : ℚ) = (t : ℚ) / p := by
      push_cast
      rw [neg_div_neg_eq]
    have hpn : ((-p : ℤ) : ℚ) ≠ 0 := by push_cast; linarith
    unfold GetTotalPages at key ⊢
    simp only at key ⊢
    rw [Float64.ofInt_exact (by rw [abs_neg]; exact ht),
      Float64.ofInt_exact (by rw [abs_neg]; exact hpabs), Float64.div_finite _ hpn, hq] at key
    rw [Float64.ofInt_exact ht, Float64.ofInt_exact hpabs, Float64.div_finite _ hpq.ne]
    exact key
  · -- a positive count: the opposite of a positive quotient, whose floor is kept
    have htq : (0 : ℚ) < t := by exact_mod_cast ht0
    have ht53 : (t : ℚ) ≤ 2 ^ 53 := by exact_mod_cast htb.2
    have hbq : (0 : ℚ) < -(p : ℚ) := by linarith
    have hb1 : (1 : ℚ) ≤ -(p : ℚ) := by
      have : (1 : ℤ) ≤ -p := by omega
      exact_mod_cast this
    have hb53 : -(p : ℚ) ≤ 2 ^ 53 := by
      have : -p ≤ 2 ^ 53 := by omega
      exact_mod_cast this
    have ht1q : (1 : ℚ) ≤ t := by exact_mod_cast ht0
    obtain ⟨y, hy⟩ : ∃ y : ℚ, y = (t : ℚ) / -(p : ℚ) := ⟨_, rfl⟩
    have hyb : y * -(p : ℚ) = t := by rw [hy]; exact div_mul_cancel₀ _ hbq.ne'
    have hxy : (t : ℚ) / p = -y := by rw [hy, div_neg, neg_neg]
    have hypos : 0 < y := by rw [hy]; exact div_pos htq hbq
    have hyle : y ≤ t := by rw [hy]; exact div_le_self htq.le hb1
    have hmin : (2 : ℚ) ^ (-1022 : ℤ) ≤ y := by
      rw [hy, le_div_iff₀ hbq]
      have h1 : (2 : ℚ) ^ (-1022 : ℤ) * -(p : ℚ) ≤ 2 ^ (-1022 : ℤ) * 2 ^ 53 :=
        mul_le_mul_of_nonneg_left hb53 (by positivity)
      have h2 : (2 : ℚ) ^ (-1022 : ℤ) * 2 ^ 53 ≤ 1 := by
        rw [zpow_neg, show (1022 : ℤ) = ((1022 : ℕ) : ℤ) by rfl, zpow_natCast]
        norm_num
      linarith
    have hgap : y ≤ ((⌊y⌋ : ℚ) + 1 - y) * 2 ^ 53 := by
      have hlt : y < (⌊y⌋ : ℚ) + 1 := Int.lt_floor_add_one y
      have hkb : t < (⌊y⌋ + 1) * -p := by
        have h1 : y * -(p : ℚ) < ((⌊y⌋ : ℚ) + 1) * -(p : ℚ) :=
          mul_lt_mul_of_pos_right hlt hbq
        rw [hyb] at h1
        exact_mod_cast h1
      have hkb1 : t + 1 ≤ (⌊y⌋ + 1) * -p := by omega
      have hkb1q : (t : ℚ) + 1 ≤ ((⌊y⌋ : ℚ) + 1) * -(p : ℚ) := by exact_mod_cast hkb1
      have hstep : (1 : ℚ) / -(p : ℚ) ≤ (⌊y⌋ : ℚ) + 1 - y := by
        have h2 : (1 / -(p : ℚ) + y) * -(p : ℚ) ≤ ((⌊y⌋ : ℚ) + 1) * -(p : ℚ) := by
          rw [add_mul, hyb, one_div, inv_mul_cancel₀ hbq.ne']
          linarith
        exact le_sub_iff_add_le.mpr (le_of_mul_le_mul_right h2 hbq)
      have h53 : y ≤ 1 / -(p : ℚ) * 2 ^ 53 := by
        rw [hy, one_div, inv_mul_eq_div]
        exact div_le_div_of_nonneg_right ht53 hbq.le
      have : (1 : ℚ) / -(p : ℚ) * 2 ^ 53 ≤ ((⌊y⌋ : ℚ) + 1 - y) * 2 ^ 53 :=
        mul_le_mul_of_nonneg_right hstep (by positivity)
      linarith
    obtain ⟨hlo, hhi⟩ := roundToGrid_floor hypos hmin (by linarith) hgap
    have hk0 : 0 ≤ ⌊y⌋ := Int.floor_nonneg.mpr hypos.le
    have hk53 : ⌊y⌋ ≤ 2 ^ 53 := by
      have : (⌊y⌋ : ℚ) ≤ 2 ^ 53 := le_trans (Int.floor_le y) (by linarith)
      exact_mod_cast this
    have hk0q : (0 : ℚ) ≤ (⌊y⌋ : ℚ) := by exact_mod_cast hk0
    have hk53q : (⌊y⌋ : ℚ) ≤ 2 ^ 53 := by exact_mod_cast hk53
    unfold GetTotalPages
    simp only
    rw [Float64.ofInt_exact ht, Float64.ofInt_exact hpabs, Float64.div_finite _ hpq.ne, hxy]
    have hround : Float64.round (-y) = Float64.finite (-roundToGrid y) := by
      unfold Float64.round
      simp only [roundToGrid_neg]
      have h1024 : (2 : ℚ) ^ 54 < 2 ^ 1024 := by norm_num
      have h54 : (2 : ℚ) ^ 53 + 1 < 2 ^ 54 := by norm_num
      rw [if_neg (by linarith), if_neg (by linarith)]
    rw [hround]
    have hceil : ⌈-roundToGrid y⌉ = -⌊y⌋ := by
      rw [Int.ceil_neg, neg_inj, Int.floor_eq_iff]
      exact ⟨hlo, hhi⟩
    simp only [Float64.ceil, hceil]
    rw [Float64.toInt_intCast impl (by unfold IsInt minInt maxInt; constructor <;> omega),
      Int.ceil_neg]

/-- With a page size of 0 the quotient is an infinity or a NaN, and the page
count is whatever the platform converts it to. -/
theorem GetTotalPages_zero_size (impl : Float64 → Int) {t : ℤ} (ht : |t| ≤ 2 ^ 53) :
    GetTotalPages impl t 0 =
      impl (if t = 0 then Float64.nan else if 0 < t then Float64.posInf else Float64.negInf) := by
  unfold GetTotalPages
  simp only
  have h0 : Float64.ofInt 0 = Float64.finite 0 := by
    have := Float64.ofInt_exact (n := 0) (by norm_num)
    simpa using this
  rw [Float64.ofInt_exact ht, h0, Float64.div_finite_zero]
  by_cases h1 : t = 0
  · simp [h1, Float64.ceil, Float64.toInt]
  · have h1q : ¬ (t : ℚ) = 0 := by exact_mod_cast h1
    by_cases h2 : 0 < t
    · have h2q : (0 : ℚ) < t := by exact_mod_cast h2
      simp [h1, h2, h1q, h2q, Float64.ceil, Float64.toInt]
    · have h2q : ¬ (0 : ℚ) < t := by exact_mod_cast h2
      simp [h1, h2, h1q, h2q, Float64.ceil, Float64.toInt]

/-- C17, refuted: for 10 rows and a page size of -1 the page count is -10,
not 0. -/
theorem GetTotalPages_negative_size_not_zero :
    GetTotalPages amd64 10 (-1) = -10 ∧ GetTotalPages amd64 10 (-1) ≠ 0 := by
  have h : GetTotalPages amd64 10 (-1) = -10 := by
    rw [GetTotalPages_neg_size amd64 (by norm_num) (by norm_num) (by norm_num), Int.ceil_eq_iff]
    norm_num
  exact ⟨h, by rw [h]; decide⟩

/-- C17, amended: `GetTotalPages` has no fallback for a page size that is not
positive.  For a total count of absolute value at most `2 ^ 53` and a negative
page size from `-2 ^ 53` on, it is the ceiling of the exact quotient, which is 0
exactly when the total count is from 0 to below the opposite of the page size;
for a page size of 0 it is the platform's conversion of a NaN (total count 0),
of the positive infinity (total count above 0) or of the negative infinity. -/
theorem GetTotalPages_nonpositive_size (impl : Float64 → Int) (totalCount pageSize : Int)
    (ht : |totalCount| ≤ 2 ^ 53) (hp53 : -2 ^ 53 ≤ pageSize) (hp : pageSize ≤ 0) :
    (pageSize < 0 →
        GetTotalPages impl totalCount pageSize = ⌈(totalCount : ℚ) / (pageSize : ℚ)⌉ ∧
          (GetTotalPages impl totalCount pageSize = 0 ↔
            0 ≤ totalCount ∧ totalCount < -pageSize)) ∧
      (pageSize = 0 →
        GetTotalPages impl totalCount pageSize =
          impl (if totalCount = 0 then Float64.nan
            else if 0 < totalCount then Float64.posInf else Float64.negInf)) := by
  constructor
  · intro hneg
    have h := GetTotalPages_neg_size impl ht hp53 hneg
    refine ⟨h, ?_⟩
    have hpq : (pageSize : ℚ) < 0 := by exact_mod_cast hneg
    rw [h, Int.ceil_eq_iff]
    push_cast
    constructor
    · rintro ⟨h1, h2⟩
      have h3 : (totalCount : ℚ) < -(pageSize : ℚ) := by
        have := (lt_div_iff_of_neg hpq).mp h1
        linarith
      have h4 : (0 : ℚ) ≤ totalCount := by
        have := (div_le_iff_of_neg hpq).mp h2
        linarith
      exact ⟨by exact_mod_cast h4, by exact_mod_cast h3⟩
    · rintro ⟨h1, h2⟩
      have h1q : (0 : ℚ) ≤ totalCount := by exact_mod_cast h1
      have h2q : (totalCount : ℚ) < -(pageSize : ℚ) := by exact_mod_cast h2
      constructor
      · rw [lt_div_iff_of_neg hpq]; linarith
      · rw [div_le_iff_of_neg hpq]; linarith
  · intro h0
    subst h0
    exact GetTotalPages_zero_size impl ht

/-- The amended C17 at 10 rows with page size -3, at 2 rows with page size
-3 and at 10 rows with page size 0. -/
theorem GetTotalPages_nonpositive_size_witness :
    (|(10 : Int)| ≤ 2 ^ 53 ∧ (-2 ^ 53 : Int) ≤ -3 ∧ (-3 : Int) ≤ 0) ∧
      GetTotalPages amd64 10 (-3) = -3 ∧ GetTotalPages amd64 2 (-3) = 0 ∧
      GetTotalPages amd64 10 0 = amd64 Float64.posInf := by
  refine ⟨⟨by decide, by decide, by decide⟩, ?_, ?_, ?_⟩
  · rw [((GetTotalPages_nonpositive_size amd64 10 (-3) (by decide) (by decide) (by decide)).1
      (by decide)).1, Int.ceil_eq_iff]
    norm_num
  · exact ((GetTotalPages_nonpositive_size amd64 2 (-3) (by decide) (by decide) (by decide)).1
      (by decide)).2.mpr ⟨by decide, by decide⟩
  · exact (GetTotalPages_nonpositive_size amd64 10 0 (by decide) (by decide) (by decide)).2 rfl

end Pagy
